import Mathlib

/-!
# Akari (Light Up) rule engine

A shallow embedding of the rule engine of `akari_simulator.c`: the board
(`Cell`, `Board`), bulb placement and removal (`placeLight`, `removeLight`),
illumination propagation (`updateIllumination`) and the state evaluator
(`checkPuzzleState`), followed by theorems about them.

Modelling conventions.

* The C program keeps the board in the globals `board`, `board_height` and
  `board_width`; here they are the fields of an explicit `Board` value that is
  passed to and returned from every operation.
* `board[i][j]` is the function `Board.board i j`.  The program only touches
  cells with `0 ≤ i < board_height` and `0 ≤ j < board_width`; what the function
  holds elsewhere is never read and never written.
* The dimensions are natural numbers (the loops of the program never run for a
  non-positive bound).  The coordinates handed to `placeLight` and `removeLight`
  are arbitrary integers, as in the C signatures.
* `is_lit` is declared `int` in C but only ever holds `true` or `false` and is
  only tested for truth; it is a `Bool` here.
* A counting `for` loop without `break` is `forUpTo`; a loop whose body may
  `return` is `forUpToE`, in which `Except.error v` stands for `return v`.
* The puzzle text is a list of strings read one character per `char`.
-/

namespace Akari

/-! ## Data model -/

/-- The enumeration `CellType`, constructors in declaration order. -/
inductive CellType where
  | CELL_WHITE
  | CELL_BLACK
  | CELL_BLACK_0
  | CELL_BLACK_1
  | CELL_BLACK_2
  | CELL_BLACK_3
  | CELL_BLACK_4
deriving DecidableEq

/-- The integer value C gives to each enumerator. -/
def CellType.code : CellType → Nat
  | .CELL_WHITE => 0
  | .CELL_BLACK => 1
  | .CELL_BLACK_0 => 2
  | .CELL_BLACK_1 => 3
  | .CELL_BLACK_2 => 4
  | .CELL_BLACK_3 => 5
  | .CELL_BLACK_4 => 6

/-- The struct `Cell`. -/
structure Cell where
  type : CellType
  has_light : Bool
  is_lit : Bool
deriving DecidableEq

/-- The three globals `board_height`, `board_width` and `board`. -/
structure Board where
  board_height : Nat
  board_width : Nat
  board : Nat → Nat → Cell

/-- The assignment `board[i][j].is_lit = v`. -/
def setLit (b : Board) (i j : Nat) (v : Bool) : Board :=
  { b with board := fun r c =>
      if r = i ∧ c = j then { b.board r c with is_lit := v } else b.board r c }

/-- The assignment `board[i][j].has_light = v`. -/
def setLight (b : Board) (i j : Nat) (v : Bool) : Board :=
  { b with board := fun r c =>
      if r = i ∧ c = j then { b.board r c with has_light := v } else b.board r c }

/-! ## Loops -/

/-- The state after the first `n` rounds of `for (k = 0; k < n; k++) body(k)`. -/
def forUpTo {σ : Type} (body : Nat → σ → σ) : Nat → σ → σ
  | 0, s => s
  | n + 1, s => body n (forUpTo body n s)

/-- The same loop when the body may leave the function with `return v`
(`Except.error v`): once a round has returned, the later rounds do not run. -/
def forUpToE {σ : Type} (body : Nat → σ → Except Int σ) : Nat → σ → Except Int σ
  | 0, s => .ok s
  | n + 1, s =>
    match forUpToE body n s with
    | .error v => .error v
    | .ok s' => body n s'

/-! ## Board construction -/

/-- The character `puzzle_data[i][j]`: a character of row `i`, or NUL at the position
of the terminator of row `i`.  For a missing row and for a position past the
terminator the C read is out of bounds and its value is not fixed by the
program; the function returns NUL there as well, and the theorems about the
kinds of the constructed cells are stated only for texts whose reads are
inside a row or at its terminator (`WellFormed`, `ReadsDefined`). -/
def charAt (puzzle_data : List String) (i j : Nat) : Char :=
  ((puzzle_data.getD i "").toList).getD j (Char.ofNat 0)

/-- The `switch (cell_char)` of `initializeBoard`. -/
def cellTypeOfChar (cell_char : Char) : CellType :=
  if cell_char = 'W' then .CELL_WHITE
  else if cell_char = '_' then .CELL_BLACK
  else if cell_char = '0' then .CELL_BLACK_0
  else if cell_char = '1' then .CELL_BLACK_1
  else if cell_char = '2' then .CELL_BLACK_2
  else if cell_char = '3' then .CELL_BLACK_3
  else if cell_char = '4' then .CELL_BLACK_4
  else .CELL_WHITE

/-- The function `initializeBoard`: every cell of the `h × w` grid gets its type from
the puzzle text, no bulb and no light. -/
def initializeBoard (puzzle_data : List String) (h w : Nat) : Board :=
  { board_height := h
    board_width := w
    board := fun i j =>
      { type := cellTypeOfChar (charAt puzzle_data i j)
        has_light := false
        is_lit := false } }

/-! ## Placement and removal -/

/-- The function `placeLight`: the returned pair is the `bool` result and the board
afterwards. -/
def placeLight (b : Board) (row col : Int) : Bool × Board :=
  if row < 0 ∨ row ≥ (b.board_height : Int) ∨ col < 0 ∨ col ≥ (b.board_width : Int) then
    (false, b)
  else if (b.board row.toNat col.toNat).type ≠ .CELL_WHITE then
    (false, b)
  else if (b.board row.toNat col.toNat).has_light = true then
    (false, b)
  else
    (true, setLight b row.toNat col.toNat true)

/-- The function `removeLight`. -/
def removeLight (b : Board) (row col : Int) : Bool × Board :=
  if row < 0 ∨ row ≥ (b.board_height : Int) ∨ col < 0 ∨ col ≥ (b.board_width : Int) then
    (false, b)
  else if (b.board row.toNat col.toNat).has_light = false then
    (false, b)
  else
    (true, setLight b row.toNat col.toNat false)

/-! ## Illumination -/

/-- A ray running towards index 0:
`for (k = n - 1; k >= 0 && type(pos k) == CELL_WHITE; k--) is_lit(pos k) = true`.
The argument `n` is the number of cells not yet visited, so the cell visited
next is `pos (n - 1)`. -/
def rayDec (pos : Nat → Nat × Nat) : Nat → Board → Board
  | 0, b => b
  | k + 1, b =>
    if (b.board (pos k).1 (pos k).2).type = .CELL_WHITE then
      rayDec pos k (setLit b (pos k).1 (pos k).2 true)
    else b

/-- A ray running towards the far edge:
`for (k = k0; k < limit && type(pos k) == CELL_WHITE; k++) is_lit(pos k) = true`.
The first argument is `limit - k`, the number of cells left before the edge,
so `k < limit` is the test that it is not zero. -/
def rayInc (pos : Nat → Nat × Nat) : Nat → Nat → Board → Board
  | 0, _, b => b
  | left + 1, k, b =>
    if (b.board (pos k).1 (pos k).2).type = .CELL_WHITE then
      rayInc pos left (k + 1) (setLit b (pos k).1 (pos k).2 true)
    else b

/-- The body of the second double loop of `updateIllumination` at cell `(i, j)`. -/
def illuminateFrom (i j : Nat) (b : Board) : Board :=
  if (b.board i j).has_light = true then
    let b := setLit b i j true
    -- up
    let b := rayDec (fun k => (k, j)) i b
    -- down
    let b := rayInc (fun k => (k, j)) (b.board_height - (i + 1)) (i + 1) b
    -- left
    let b := rayDec (fun k => (i, k)) j b
    -- right
    let b := rayInc (fun k => (i, k)) (b.board_width - (j + 1)) (j + 1) b
    b
  else b

/-- The first double loop of `updateIllumination`: clear every `is_lit`. -/
def resetIllumination (b : Board) : Board :=
  forUpTo (fun i b => forUpTo (fun j b => setLit b i j false) b.board_width b)
    b.board_height b

/-- The function `updateIllumination`. -/
def updateIllumination (b : Board) : Board :=
  let b := resetIllumination b
  forUpTo (fun i b => forUpTo (fun j b => illuminateFrom i j b) b.board_width b)
    b.board_height b

/-! ## State evaluation -/

/-- A conflict scan towards index 0; `true` stands for `return -1`:
`for (k = n - 1; k >= 0; k--) { if (has_light(pos k)) return -1;
if (type(pos k) != CELL_WHITE) break; }`. -/
def scanDec (b : Board) (pos : Nat → Nat × Nat) : Nat → Bool
  | 0 => false
  | k + 1 =>
    if (b.board (pos k).1 (pos k).2).has_light = true then true
    else if (b.board (pos k).1 (pos k).2).type ≠ .CELL_WHITE then false
    else scanDec b pos k

/-- A conflict scan towards the far edge; the first argument is `limit - k`. -/
def scanInc (b : Board) (pos : Nat → Nat × Nat) : Nat → Nat → Bool
  | 0, _ => false
  | left + 1, k =>
    if (b.board (pos k).1 (pos k).2).has_light = true then true
    else if (b.board (pos k).1 (pos k).2).type ≠ .CELL_WHITE then false
    else scanInc b pos left (k + 1)

/-- The four scans of rule 1 from cell `(i, j)`: does one of them `return -1`? -/
def lightScan (b : Board) (i j : Nat) : Bool :=
  scanDec b (fun k => (k, j)) i
    || scanInc b (fun k => (k, j)) (b.board_height - (i + 1)) (i + 1)
    || scanDec b (fun k => (i, k)) j
    || scanInc b (fun k => (i, k)) (b.board_width - (j + 1)) (j + 1)

/-- The test `type >= CELL_BLACK_0 && type <= CELL_BLACK_4`. -/
def isNumbered (t : CellType) : Bool :=
  decide (CellType.CELL_BLACK_0.code ≤ t.code) && decide (t.code ≤ CellType.CELL_BLACK_4.code)

/-- The value `required_lights = type - CELL_BLACK_0`. -/
def requiredLights (t : CellType) : Int :=
  (t.code : Int) - (CellType.CELL_BLACK_0.code : Int)

/-- The value `adjacent_lights` after the four neighbour tests. -/
def adjacentLights (b : Board) (i j : Nat) : Nat :=
  (if i > 0 ∧ (b.board (i - 1) j).has_light = true then 1 else 0)
    + (if i < b.board_height - 1 ∧ (b.board (i + 1) j).has_light = true then 1 else 0)
    + (if j > 0 ∧ (b.board i (j - 1)).has_light = true then 1 else 0)
    + (if j < b.board_width - 1 ∧ (b.board i (j + 1)).has_light = true then 1 else 0)

/-- The body of the double loop of `checkPuzzleState` at cell `(i, j)`; the state
carried from round to round is the local `all_white_lit`. -/
def checkCell (b : Board) (i j : Nat) (all_white_lit : Bool) : Except Int Bool :=
  if ((b.board i j).has_light && (b.board i j).is_lit) = true ∧ lightScan b i j = true then
    .error (-1)
  else if isNumbered (b.board i j).type = true
      ∧ (adjacentLights b i j : Int) ≠ requiredLights (b.board i j).type then
    .error (-2)
  else if (b.board i j).type = .CELL_WHITE ∧ (b.board i j).is_lit = false then
    .ok false
  else
    .ok all_white_lit

/-- The function `checkPuzzleState`: 1 solved, 0 in progress, -1 light conflict,
-2 number conflict. -/
def checkPuzzleState (b : Board) : Int :=
  match forUpToE (fun i a => forUpToE (fun j a => checkCell b i j a) b.board_width a)
      b.board_height true with
  | .error v => v
  | .ok all_white_lit => if all_white_lit = true then 1 else 0

/-- Result code of `checkPuzzleState`: the puzzle is solved. -/
abbrev Solved : Int := 1
/-- Result code of `checkPuzzleState`: no violation, some white cell is dark. -/
abbrev InProgress : Int := 0
/-- Result code of `checkPuzzleState`: a bulb is lit by another bulb. -/
abbrev LightConflict : Int := -1
/-- Result code of `checkPuzzleState`: a numbered cell has the wrong bulb count. -/
abbrev NumberConflict : Int := -2

/-! ## Specification vocabulary

The predicates below say, in terms of the board alone, what the operations are
expected to establish.  None of them is used by the program text above. -/

/-- The integer pair `(row, col)` names a cell of the board. -/
def InRange (b : Board) (row col : Int) : Prop :=
  0 ≤ row ∧ row < (b.board_height : Int) ∧ 0 ≤ col ∧ col < (b.board_width : Int)

instance (b : Board) (row col : Int) : Decidable (InRange b row col) := by
  unfold InRange; infer_instance

/-- Bulbs sit only on white cells of the board. -/
def BulbsOnWhite (b : Board) : Prop :=
  ∀ i, i < b.board_height → ∀ j, j < b.board_width →
    (b.board i j).has_light = true → (b.board i j).type = .CELL_WHITE

instance (b : Board) : Decidable (BulbsOnWhite b) := by
  unfold BulbsOnWhite; infer_instance

/-- Cell `(i, j)` is white. -/
def White (b : Board) (i j : Nat) : Prop := (b.board i j).type = .CELL_WHITE

/-- Cell `(i, j)` holds a bulb. -/
def Bulb (b : Board) (i j : Nat) : Prop := (b.board i j).has_light = true

/-- Cell `(i, j)` is marked lit. -/
def Lit (b : Board) (i j : Nat) : Prop := (b.board i j).is_lit = true

/-- Index `m` lies on the way from `a` (exclusive) to `c` (inclusive). -/
def Between (a c m : Nat) : Prop := (a < m ∧ m ≤ c) ∨ (c ≤ m ∧ m < a)

/-- Index `m` lies on the way from `a` to `c`, both ends included. -/
def Span (a c m : Nat) : Prop := (a ≤ m ∧ m ≤ c) ∨ (c ≤ m ∧ m ≤ a)

/-- Cell `(r, c)` holds a bulb, or a bulb of its column or of its row has only white
cells from the bulb (exclusive) to the cell (inclusive). -/
def Illuminated (b : Board) (r c : Nat) : Prop :=
  Bulb b r c
    ∨ (∃ i, i < b.board_height ∧ Bulb b i c ∧ ∀ m, Between i r m → White b m c)
    ∨ (∃ j, j < b.board_width ∧ Bulb b r j ∧ ∀ m, Between j c m → White b r m)

/-- Cell `(r, c)` holds a bulb, or a bulb of its column or of its row has only white
cells from the bulb up to and including the cell. -/
def SeesBulb (b : Board) (r c : Nat) : Prop :=
  Bulb b r c
    ∨ (∃ i, i < b.board_height ∧ Bulb b i c ∧ ∀ m, Span i r m → White b m c)
    ∨ (∃ j, j < b.board_width ∧ Bulb b r j ∧ ∀ m, Span j c m → White b r m)

/-- Walking outward from `(i, j)` in one of the four directions (up, down, left,
right) a bulb-holding cell of the board is reached with only white cells passed
before it.  Nothing is asked of the type of the bulb-holding cell itself. -/
def ReachesBulb (b : Board) (i j : Nat) : Prop :=
  (∃ k, k < i ∧ Bulb b k j ∧ ∀ m, k < m → m < i → White b m j)
    ∨ (∃ k, i < k ∧ k < b.board_height ∧ Bulb b k j ∧ ∀ m, i < m → m < k → White b m j)
    ∨ (∃ k, k < j ∧ Bulb b i k ∧ ∀ m, k < m → m < j → White b i m)
    ∨ (∃ k, j < k ∧ k < b.board_width ∧ Bulb b i k ∧ ∀ m, j < m → m < k → White b i m)

/-- A light-violating cell: it has a bulb, is lit, and reaches another bulb. -/
def LightViolating (b : Board) (i j : Nat) : Prop :=
  Bulb b i j ∧ Lit b i j ∧ ReachesBulb b i j

/-- The number written on a numbered black cell. -/
def clue : CellType → Option Nat
  | .CELL_BLACK_0 => some 0
  | .CELL_BLACK_1 => some 1
  | .CELL_BLACK_2 => some 2
  | .CELL_BLACK_3 => some 3
  | .CELL_BLACK_4 => some 4
  | _ => none

/-- The orthogonal neighbours of `(i, j)` with non-negative coordinates. -/
def neighbours (i j : Nat) : List (Nat × Nat) :=
  (if 0 < i then [(i - 1, j)] else []) ++ [(i + 1, j)]
    ++ (if 0 < j then [(i, j - 1)] else []) ++ [(i, j + 1)]

/-- The number of in-range orthogonal neighbours of `(i, j)` holding a bulb. -/
def neighbourBulbs (b : Board) (i j : Nat) : Nat :=
  ((neighbours i j).filter fun p =>
    decide (p.1 < b.board_height ∧ p.2 < b.board_width) && (b.board p.1 p.2).has_light).length

/-- A number-violating cell: numbered `n`, with a bulb count among its neighbours
other than `n`. -/
def NumberViolating (b : Board) (i j : Nat) : Prop :=
  ∃ n, clue (b.board i j).type = some n ∧ neighbourBulbs b i j ≠ n

/-- A violating cell, of either kind. -/
def Violating (b : Board) (i j : Nat) : Prop := LightViolating b i j ∨ NumberViolating b i j

/-- Row-major order: `(i', j')` is scanned before `(i, j)`. -/
def Precedes (i' j' i j : Nat) : Prop := i' < i ∨ (i' = i ∧ j' < j)

/-- Cell `(i, j)` is the first violating cell of the board in row-major order. -/
def FirstViolating (b : Board) (i j : Nat) : Prop :=
  i < b.board_height ∧ j < b.board_width ∧ Violating b i j
    ∧ ∀ i' j', i' < b.board_height → j' < b.board_width → Precedes i' j' i j →
        ¬ Violating b i' j'

/-- No cell of the board is violating. -/
def NoViolation (b : Board) : Prop :=
  ∀ i j, i < b.board_height → j < b.board_width → ¬ Violating b i j

/-- Every white cell of the board has `is_lit = true`. -/
def AllWhiteLit (b : Board) : Prop :=
  ∀ i j, i < b.board_height → j < b.board_width → White b i j → Lit b i j

/-- Rule (a) of Akari: every white cell holds a bulb or sees one. -/
def EveryWhiteLit (b : Board) : Prop :=
  ∀ r c, r < b.board_height → c < b.board_width → White b r c → SeesBulb b r c

/-- Two distinct bulbs lie in one column or in one row with only white cells strictly
between them. -/
def BulbsConflict (b : Board) : Prop :=
  (∃ i i' j, i < i' ∧ i' < b.board_height ∧ j < b.board_width ∧ Bulb b i j ∧ Bulb b i' j
      ∧ ∀ m, i < m → m < i' → White b m j)
    ∨ (∃ i j j', j < j' ∧ j' < b.board_width ∧ i < b.board_height ∧ Bulb b i j ∧ Bulb b i j'
      ∧ ∀ m, j < m → m < j' → White b i m)

/-- Rule (c) of Akari: every numbered cell has exactly its number of bulbs among its
in-range orthogonal neighbours. -/
def CluesMet (b : Board) : Prop :=
  ∀ i j, i < b.board_height → j < b.board_width →
    ∀ n, clue (b.board i j).type = some n → neighbourBulbs b i j = n

/-- A valid Akari solution: rules (a), (b) and (c). -/
def ValidSolution (b : Board) : Prop :=
  EveryWhiteLit b ∧ ¬ BulbsConflict b ∧ CluesMet b

/-! ## Auxiliary definitions for the proofs -/

/-- Board `b'` has the dimensions, the cell types and the bulbs of `b`. -/
def SameFrame (b b' : Board) : Prop :=
  b'.board_height = b.board_height ∧ b'.board_width = b.board_width
    ∧ ∀ r c, (b'.board r c).type = (b.board r c).type
        ∧ (b'.board r c).has_light = (b.board r c).has_light

/-- The cells `(r, c)` that the pass of `illuminateFrom i j` marks: the cell itself
and the white runs above, below, left and right of it. -/
def Shines (b : Board) (i j r c : Nat) : Prop :=
  (r = i ∧ c = j)
    ∨ (c = j ∧ r < i ∧ ∀ m, r ≤ m → m < i → White b m j)
    ∨ (c = j ∧ i < r ∧ r < b.board_height ∧ ∀ m, i < m → m ≤ r → White b m j)
    ∨ (r = i ∧ c < j ∧ ∀ m, c ≤ m → m < j → White b i m)
    ∨ (r = i ∧ j < c ∧ c < b.board_width ∧ ∀ m, j < m → m ≤ c → White b i m)

/-- Some bulb of the board shines on `(r, c)`. -/
def ShoneOn (b : Board) (r c : Nat) : Prop :=
  ∃ i, i < b.board_height ∧ ∃ j, j < b.board_width ∧ Bulb b i j ∧ Shines b i j r c

/-- The first `some` among `verdict 0`, ..., `verdict (n - 1)`. -/
def firstVerdict (verdict : Nat → Option Int) : Nat → Option Int
  | 0 => none
  | n + 1 =>
    match firstVerdict verdict n with
    | some v => some v
    | none => verdict n

/-- The value `checkCell` returns from the function at `(i, j)`, if it does. -/
def cellVerdict (b : Board) (i j : Nat) : Option Int :=
  if ((b.board i j).has_light && (b.board i j).is_lit) = true ∧ lightScan b i j = true then
    some (-1)
  else if isNumbered (b.board i j).type = true
      ∧ (adjacentLights b i j : Int) ≠ requiredLights (b.board i j).type then
    some (-2)
  else none

/-- The value of `all_white_lit` after `checkCell` at `(i, j)`, if it does not return. -/
def cellFlag (b : Board) (i j : Nat) (all_white_lit : Bool) : Bool :=
  if (b.board i j).type = .CELL_WHITE ∧ (b.board i j).is_lit = false then false
  else all_white_lit

/-! ## Sample boards -/

/-- The 1×1 white board with a bulb on its only cell. -/
def singleBulb : Board := (placeLight (initializeBoard ["W"] 1 1) 0 0).2

/-- The 1×3 all-white board. -/
def whiteRow : Board := initializeBoard ["WWW"] 1 3

/-- The 1×3 all-white board with a bulb at column 0. -/
def bulbRow : Board := (placeLight whiteRow 0 0).2

/-- The 1×3 all-white board with bulbs at columns 0 and 2. -/
def twoBulbRow : Board := (placeLight (placeLight whiteRow 0 0).2 0 2).2

/-- The 1×3 board built from `"W W"`. -/
def gapRow : Board := initializeBoard ["W W"] 1 3

/-- The board `"W W"` with a bulb at column 1. -/
def gapSolved : Board := (placeLight gapRow 0 1).2

/-- The 1×3 board built from `"W0W"`. -/
def zeroRow : Board := initializeBoard ["W0W"] 1 3

/-! ## Vocabulary for boards built step by step -/

/-- The board `b` with every bulb removed except the one at `(i, j)`, if there is one. -/
def keepOnly (b : Board) (i j : Nat) : Board :=
  { b with board := fun r c =>
      { b.board r c with has_light := decide (r = i ∧ c = j) && (b.board r c).has_light } }

/-- The boards the interface can produce: built by `initializeBoard`, then changed by
`placeLight`, `removeLight` and `updateIllumination`, whatever the calls return. -/
inductive Reachable : Board → Prop where
  | construct (puzzle_data : List String) (h w : Nat) :
      Reachable (initializeBoard puzzle_data h w)
  | place (b : Board) (row col : Int) : Reachable b → Reachable (placeLight b row col).2
  | remove (b : Board) (row col : Int) : Reachable b → Reachable (removeLight b row col).2
  | propagate (b : Board) : Reachable b → Reachable (updateIllumination b)

/-- The 7×7 puzzle `puzzle_sample` of `main`. -/
def puzzle_sample : List String :=
  ["_1_W_W_", "W_W_W_W", "__W0_W_", "WWWWWWW", "_W_2W__", "W_W_W_W", "_W_W_0_"]

/-- The character `rows[i][j]` of a puzzle text, when row `i` exists and has a
character at position `j`. -/
def charOf (rows : List String) (i j : Nat) : Option Char :=
  (rows[i]?).bind fun s => s.toList[j]?

/-- The puzzle text has exactly `h` rows, each of length `w`. -/
def WellFormed (rows : List String) (h w : Nat) : Prop :=
  rows.length = h ∧ ∀ s, s ∈ rows → s.length = w

instance (rows : List String) (h w : Nat) : Decidable (WellFormed rows h w) := by
  unfold WellFormed; infer_instance

/-- The kind `t` is the one the puzzle format gives to the character `ch`: `W` white,
`_` plain black, a digit `0` to `4` black with that number, anything else white. -/
def KindOfChar (ch : Char) (t : CellType) : Prop :=
  (ch = 'W' → t = .CELL_WHITE)
    ∧ (ch = '_' → t = .CELL_BLACK)
    ∧ (ch = '0' → t = .CELL_BLACK_0)
    ∧ (ch = '1' → t = .CELL_BLACK_1)
    ∧ (ch = '2' → t = .CELL_BLACK_2)
    ∧ (ch = '3' → t = .CELL_BLACK_3)
    ∧ (ch = '4' → t = .CELL_BLACK_4)
    ∧ (ch ∉ ['W', '_', '0', '1', '2', '3', '4'] → t = .CELL_WHITE)

/-- Every read `puzzle_data[i][j]` that `initializeBoard` makes for an `h × w` board
lands in an existing row, on one of its characters or on its terminator: no read
is out of bounds. -/
def ReadsDefined (rows : List String) (h w : Nat) : Prop :=
  ∀ i, i < h → ∀ j, j < w → ∃ s, rows[i]? = some s ∧ j ≤ s.length

/-- The 1×3 board built from `"W1W"`. -/
def oneRow : Board := initializeBoard ["W1W"] 1 3

/-! ## Placement and removal: theorems -/

@[simp] theorem setLight_height (b : Board) (i j : Nat) (v : Bool) :
    (setLight b i j v).board_height = b.board_height := rfl

@[simp] theorem setLight_width (b : Board) (i j : Nat) (v : Bool) :
    (setLight b i j v).board_width = b.board_width := rfl

theorem setLight_board (b : Board) (i j : Nat) (v : Bool) (r c : Nat) :
    (setLight b i j v).board r c =
      if r = i ∧ c = j then { b.board r c with has_light := v } else b.board r c := rfl

/-- C5: `placeLight` returns true exactly when the coordinates are in range and the
target cell is white and holds no bulb; whenever it returns false the board is
returned unchanged. -/
theorem placeLight_true_iff (b : Board) (row col : Int) :
    ((placeLight b row col).1 = true ↔
        (InRange b row col ∧ (b.board row.toNat col.toNat).type = .CELL_WHITE
          ∧ (b.board row.toNat col.toNat).has_light = false))
      ∧ ((placeLight b row col).1 = false → (placeLight b row col).2 = b) := by
  unfold placeLight InRange
  split_ifs with h1 h2 h3
  · simp; omega
  · simp [h2]
  · simp [h3]
  · simp at h2 h3
    simp [h2, h3]; omega

/-- C6: a successful `placeLight` sets `has_light` at the target and changes nothing
else: the dimensions, every type, every `is_lit` (the target's too) and the
`has_light` of every other cell stay as they were. -/
theorem placeLight_effect (b : Board) (row col : Int)
    (h : (placeLight b row col).1 = true) :
    (placeLight b row col).2.board_height = b.board_height
      ∧ (placeLight b row col).2.board_width = b.board_width
      ∧ ((placeLight b row col).2.board row.toNat col.toNat).has_light = true
      ∧ ∀ i j : Nat,
          ((placeLight b row col).2.board i j).type = (b.board i j).type
            ∧ ((placeLight b row col).2.board i j).is_lit = (b.board i j).is_lit
            ∧ (¬ (i = row.toNat ∧ j = col.toNat) →
                ((placeLight b row col).2.board i j).has_light = (b.board i j).has_light) := by
  unfold placeLight at h ⊢
  split_ifs at h ⊢ with h1 h2 h3
  simp only [setLight_height, setLight_width, setLight_board, true_and, and_self, if_true]
  intro i j
  by_cases hij : i = row.toNat ∧ j = col.toNat
  · simp [hij]
  · simp [hij]

/-- Witness of C6: placing a bulb on the middle cell of the 1×3 white board. -/
theorem placeLight_effect_witness :
    (placeLight whiteRow 0 1).1 = true
      ∧ ((placeLight whiteRow 0 1).2.board 0 1).has_light = true
      ∧ ((placeLight whiteRow 0 1).2.board 0 1).is_lit = (whiteRow.board 0 1).is_lit :=
  ⟨by decide, (placeLight_effect whiteRow 0 1 (by decide)).2.2.1,
    ((placeLight_effect whiteRow 0 1 (by decide)).2.2.2 0 1).2.1⟩

/-- C7: `removeLight` returns true exactly when the coordinates are in range and the
target holds a bulb; then the only change is that the target's `has_light` is
false; when it returns false the board is returned unchanged. -/
theorem removeLight_contract (b : Board) (row col : Int) :
    ((removeLight b row col).1 = true ↔
        (InRange b row col ∧ (b.board row.toNat col.toNat).has_light = true))
      ∧ ((removeLight b row col).1 = true →
          (removeLight b row col).2.board_height = b.board_height
            ∧ (removeLight b row col).2.board_width = b.board_width
            ∧ ((removeLight b row col).2.board row.toNat col.toNat).has_light = false
            ∧ ∀ i j : Nat,
                ((removeLight b row col).2.board i j).type = (b.board i j).type
                  ∧ ((removeLight b row col).2.board i j).is_lit = (b.board i j).is_lit
                  ∧ (¬ (i = row.toNat ∧ j = col.toNat) →
                      ((removeLight b row col).2.board i j).has_light
                        = (b.board i j).has_light))
      ∧ ((removeLight b row col).1 = false → (removeLight b row col).2 = b) := by
  unfold removeLight InRange
  split_ifs with h1 h2
  · simp; omega
  · simp [h2]
  · simp at h2
    refine ⟨by simp [h2]; omega, fun _ => ⟨rfl, rfl, by simp [setLight_board], fun i j => ?_⟩,
      by simp⟩
    by_cases hij : i = row.toNat ∧ j = col.toNat
    · simp [setLight_board, hij]
    · simp [setLight_board, hij]

/-- C8 as stated fails: on the 1×1 board whose cell already holds a bulb (a board with
bulbs only on white cells) `placeLight 0 0` fails, the following `removeLight 0 0`
succeeds, and the cell's `has_light` is no longer what it was. -/
theorem place_remove_not_restored :
    BulbsOnWhite singleBulb
      ∧ (placeLight singleBulb 0 0).1 = false
      ∧ (removeLight (placeLight singleBulb 0 0).2 0 0).1 = true
      ∧ ((removeLight (placeLight singleBulb 0 0).2 0 0).2.board 0 0).has_light
          ≠ (singleBulb.board 0 0).has_light := by
  refine ⟨by decide, by decide, by decide, by decide⟩

/-- C8, amended: on a board with bulbs only on white cells, when the target is out of
range or holds no bulb beforehand, `placeLight` followed by `removeLight` at the
same coordinates leaves every cell's `has_light` as it was. -/
theorem place_remove_restores (b : Board) (row col : Int) (_hinv : BulbsOnWhite b)
    (hfree : InRange b row col → (b.board row.toNat col.toNat).has_light = false)
    (i j : Nat) :
    ((removeLight (placeLight b row col).2 row col).2.board i j).has_light
      = (b.board i j).has_light := by
  unfold InRange at hfree
  unfold placeLight
  split_ifs with h1 h2 h3
  · simp [removeLight, h1]
  · have hf : (b.board row.toNat col.toNat).has_light = false := hfree (by omega)
    simp [removeLight, h1, hf]
  · have hf : (b.board row.toNat col.toNat).has_light = false := hfree (by omega)
    simp [hf] at h3
  · have hf : (b.board row.toNat col.toNat).has_light = false := hfree (by omega)
    simp only [removeLight, setLight_height, setLight_width, h1, if_false, setLight_board,
      and_self, if_true]
    by_cases hij : i = row.toNat ∧ j = col.toNat
    · simp [setLight_board, hij, hf]
    · simp [setLight_board, hij]

/-- Witness of C8 (amended): the empty 1×3 white board, middle cell. -/
theorem place_remove_restores_witness :
    BulbsOnWhite whiteRow
      ∧ ((removeLight (placeLight whiteRow 0 1).2 0 1).2.board 0 1).has_light
          = (whiteRow.board 0 1).has_light :=
  ⟨by decide, place_remove_restores whiteRow 0 1 (by decide) (fun _ => by decide) 0 1⟩

/-- C9: on an in-range white cell without a bulb, two consecutive calls of `placeLight`
return true and then false, and the second call returns the board of the first. -/
theorem placeLight_twice (b : Board) (row col : Int) (hin : InRange b row col)
    (hw : (b.board row.toNat col.toNat).type = .CELL_WHITE)
    (hl : (b.board row.toNat col.toNat).has_light = false) :
    (placeLight b row col).1 = true
      ∧ (placeLight (placeLight b row col).2 row col).1 = false
      ∧ (placeLight (placeLight b row col).2 row col).2 = (placeLight b row col).2 := by
  have h1 : ¬ (row < 0 ∨ row ≥ (b.board_height : Int) ∨ col < 0 ∨ col ≥ (b.board_width : Int)) := by
    unfold InRange at hin; omega
  have hfst : placeLight b row col = (true, setLight b row.toNat col.toNat true) := by
    simp [placeLight, h1, hw, hl]
  have hsnd : placeLight (setLight b row.toNat col.toNat true) row col
      = (false, setLight b row.toNat col.toNat true) := by
    simp [placeLight, h1, hw, setLight_board]
  rw [hfst]
  simp only [hsnd, and_self]

/-- Witness of C9: the middle cell of the empty 1×3 white board. -/
theorem placeLight_twice_witness :
    (placeLight whiteRow 0 1).1 = true
      ∧ (placeLight (placeLight whiteRow 0 1).2 0 1).1 = false
      ∧ (placeLight (placeLight whiteRow 0 1).2 0 1).2 = (placeLight whiteRow 0 1).2 :=
  placeLight_twice whiteRow 0 1 (by decide) (by decide) (by decide)

/-! ## Illumination: frame and rays -/

theorem SameFrame.refl (b : Board) : SameFrame b b := ⟨rfl, rfl, fun _ _ => ⟨rfl, rfl⟩⟩

theorem SameFrame.trans {a b c : Board} (h1 : SameFrame a b) (h2 : SameFrame b c) :
    SameFrame a c :=
  ⟨h2.1.trans h1.1, h2.2.1.trans h1.2.1,
    fun r s => ⟨((h2.2.2 r s).1).trans (h1.2.2 r s).1, ((h2.2.2 r s).2).trans (h1.2.2 r s).2⟩⟩

theorem SameFrame.white {b b' : Board} (h : SameFrame b b') (r c : Nat) :
    White b' r c ↔ White b r c := by
  unfold White; rw [(h.2.2 r c).1]

theorem SameFrame.bulb {b b' : Board} (h : SameFrame b b') (r c : Nat) :
    Bulb b' r c ↔ Bulb b r c := by
  unfold Bulb; rw [(h.2.2 r c).2]

theorem SameFrame.shines {b b' : Board} (h : SameFrame b b') (i j r c : Nat) :
    Shines b' i j r c ↔ Shines b i j r c := by
  unfold Shines
  simp only [h.white, h.1, h.2.1]

theorem setLit_sameFrame (b : Board) (i j : Nat) (v : Bool) : SameFrame b (setLit b i j v) := by
  refine ⟨rfl, rfl, fun r c => ?_⟩
  unfold setLit
  by_cases h : r = i ∧ c = j <;> simp [h]

theorem setLit_lit (b : Board) (i j : Nat) (v : Bool) (r c : Nat) :
    Lit (setLit b i j v) r c ↔ if r = i ∧ c = j then v = true else Lit b r c := by
  unfold Lit setLit
  by_cases h : r = i ∧ c = j <;> simp [h]

theorem rayDec_sameFrame (pos : Nat → Nat × Nat) (k : Nat) (b : Board) :
    SameFrame b (rayDec pos k b) := by
  induction k generalizing b with
  | zero => exact SameFrame.refl b
  | succ k ih =>
    unfold rayDec
    split_ifs
    · exact (setLit_sameFrame b _ _ _).trans (ih _)
    · exact SameFrame.refl b

theorem rayInc_sameFrame (pos : Nat → Nat × Nat) (n k : Nat) (b : Board) :
    SameFrame b (rayInc pos n k b) := by
  induction n generalizing k b with
  | zero => exact SameFrame.refl b
  | succ n ih =>
    unfold rayInc
    split_ifs
    · exact (setLit_sameFrame b _ _ _).trans (ih _ _)
    · exact SameFrame.refl b

/-- What a ray towards index 0 lights: the run of white cells next to its start. -/
theorem rayDec_lit (pos : Nat → Nat × Nat) (k : Nat) (b : Board) (r c : Nat) :
    Lit (rayDec pos k b) r c ↔
      Lit b r c ∨ ∃ m, m < k ∧ pos m = (r, c)
        ∧ ∀ m', m ≤ m' → m' < k → White b (pos m').1 (pos m').2 := by
  induction k generalizing b with
  | zero => simp [rayDec]
  | succ k ih =>
    unfold rayDec
    split_ifs with hw
    · rw [ih, setLit_lit]
      have hfr := setLit_sameFrame b (pos k).1 (pos k).2 true
      simp only [hfr.white]
      constructor
      · rintro (h | ⟨m, hm, hp, hall⟩)
        · split_ifs at h with hrc
          · right
            refine ⟨k, by omega, Prod.ext hrc.1.symm hrc.2.symm, fun m' h1 h2 => ?_⟩
            have : m' = k := by omega
            subst this; exact hw
          · exact Or.inl h
        · right
          refine ⟨m, by omega, hp, fun m' h1 h2 => ?_⟩
          by_cases hk : m' = k
          · subst hk; exact hw
          · exact hall m' h1 (by omega)
      · rintro (h | ⟨m, hm, hp, hall⟩)
        · left
          by_cases hrc : r = (pos k).1 ∧ c = (pos k).2
          · simp [hrc]
          · simpa [hrc] using h
        · by_cases hk : m = k
          · subst hk
            left
            simp [hp]
          · right
            exact ⟨m, by omega, hp, fun m' h1 h2 => hall m' h1 (by omega)⟩
    · constructor
      · exact Or.inl
      · rintro (h | ⟨m, hm, -, hall⟩)
        · exact h
        · exact absurd (hall k (by omega) (by omega)) hw

/-- What a ray towards the far edge lights: the run of white cells next to its start. -/
theorem rayInc_lit (pos : Nat → Nat × Nat) (n k : Nat) (b : Board) (r c : Nat) :
    Lit (rayInc pos n k b) r c ↔
      Lit b r c ∨ ∃ m, k ≤ m ∧ m < k + n ∧ pos m = (r, c)
        ∧ ∀ m', k ≤ m' → m' ≤ m → White b (pos m').1 (pos m').2 := by
  induction n generalizing k b with
  | zero =>
    simp only [rayInc, add_zero, iff_self_or]
    rintro ⟨m, h1, h2, -⟩
    omega
  | succ n ih =>
    unfold rayInc
    split_ifs with hw
    · rw [ih, setLit_lit]
      have hfr := setLit_sameFrame b (pos k).1 (pos k).2 true
      simp only [hfr.white]
      constructor
      · rintro (h | ⟨m, hm, hm2, hp, hall⟩)
        · split_ifs at h with hrc
          · right
            refine ⟨k, by omega, by omega, Prod.ext hrc.1.symm hrc.2.symm, fun m' h1 h2 => ?_⟩
            have : m' = k := by omega
            subst this; exact hw
          · exact Or.inl h
        · right
          refine ⟨m, by omega, by omega, hp, fun m' h1 h2 => ?_⟩
          by_cases hk : m' = k
          · subst hk; exact hw
          · exact hall m' (by omega) h2
      · rintro (h | ⟨m, hm, hm2, hp, hall⟩)
        · left
          by_cases hrc : r = (pos k).1 ∧ c = (pos k).2
          · simp [hrc]
          · simpa [hrc] using h
        · by_cases hk : m = k
          · subst hk
            left
            simp [hp]
          · right
            exact ⟨m, by omega, by omega, hp, fun m' h1 h2 => hall m' (by omega) h2⟩
    · constructor
      · exact Or.inl
      · rintro (h | ⟨m, hm, -, -, hall⟩)
        · exact h
        · exact absurd (hall k (by omega) (by omega)) hw

theorem decRay_col_iff (b : Board) (i j r c : Nat) :
    (∃ m, m < i ∧ ((fun k => (k, j)) m : Nat × Nat) = (r, c)
        ∧ ∀ m', m ≤ m' → m' < i →
            White b ((fun k => (k, j)) m' : Nat × Nat).1 ((fun k => (k, j)) m' : Nat × Nat).2)
      ↔ (c = j ∧ r < i ∧ ∀ m, r ≤ m → m < i → White b m j) := by
  constructor
  · rintro ⟨m, hm, hp, hall⟩
    simp only [Prod.mk.injEq] at hp
    obtain ⟨rfl, rfl⟩ := hp
    exact ⟨rfl, hm, hall⟩
  · rintro ⟨rfl, hr, hall⟩
    exact ⟨r, hr, rfl, hall⟩

theorem decRay_row_iff (b : Board) (i j r c : Nat) :
    (∃ m, m < j ∧ ((fun k => (i, k)) m : Nat × Nat) = (r, c)
        ∧ ∀ m', m ≤ m' → m' < j →
            White b ((fun k => (i, k)) m' : Nat × Nat).1 ((fun k => (i, k)) m' : Nat × Nat).2)
      ↔ (r = i ∧ c < j ∧ ∀ m, c ≤ m → m < j → White b i m) := by
  constructor
  · rintro ⟨m, hm, hp, hall⟩
    simp only [Prod.mk.injEq] at hp
    obtain ⟨rfl, rfl⟩ := hp
    exact ⟨rfl, hm, hall⟩
  · rintro ⟨rfl, hr, hall⟩
    exact ⟨c, hr, rfl, hall⟩

theorem incRay_col_iff (b : Board) (h i j r c : Nat) :
    (∃ m, i + 1 ≤ m ∧ m < i + 1 + (h - (i + 1)) ∧ ((fun k => (k, j)) m : Nat × Nat) = (r, c)
        ∧ ∀ m', i + 1 ≤ m' → m' ≤ m →
            White b ((fun k => (k, j)) m' : Nat × Nat).1 ((fun k => (k, j)) m' : Nat × Nat).2)
      ↔ (c = j ∧ i < r ∧ r < h ∧ ∀ m, i < m → m ≤ r → White b m j) := by
  constructor
  · rintro ⟨m, hm, hm2, hp, hall⟩
    simp only [Prod.mk.injEq] at hp
    obtain ⟨rfl, rfl⟩ := hp
    exact ⟨rfl, hm, by omega, fun m' h1 h2 => hall m' h1 h2⟩
  · rintro ⟨rfl, hr, hr2, hall⟩
    exact ⟨r, hr, by omega, rfl, fun m' h1 h2 => hall m' h1 h2⟩

theorem incRay_row_iff (b : Board) (w i j r c : Nat) :
    (∃ m, j + 1 ≤ m ∧ m < j + 1 + (w - (j + 1)) ∧ ((fun k => (i, k)) m : Nat × Nat) = (r, c)
        ∧ ∀ m', j + 1 ≤ m' → m' ≤ m →
            White b ((fun k => (i, k)) m' : Nat × Nat).1 ((fun k => (i, k)) m' : Nat × Nat).2)
      ↔ (r = i ∧ j < c ∧ c < w ∧ ∀ m, j < m → m ≤ c → White b i m) := by
  constructor
  · rintro ⟨m, hm, hm2, hp, hall⟩
    simp only [Prod.mk.injEq] at hp
    obtain ⟨rfl, rfl⟩ := hp
    exact ⟨rfl, hm, by omega, fun m' h1 h2 => hall m' h1 h2⟩
  · rintro ⟨rfl, hr, hr2, hall⟩
    exact ⟨c, hr, by omega, rfl, fun m' h1 h2 => hall m' h1 h2⟩

theorem illuminateFrom_sameFrame (i j : Nat) (b : Board) :
    SameFrame b (illuminateFrom i j b) := by
  unfold illuminateFrom
  split_ifs
  · exact ((((setLit_sameFrame b i j true).trans (rayDec_sameFrame _ _ _)).trans
      (rayInc_sameFrame _ _ _ _)).trans (rayDec_sameFrame _ _ _)).trans (rayInc_sameFrame _ _ _ _)
  · exact SameFrame.refl b

/-- One round of the bulb loop lights the cells the bulb at `(i, j)` shines on. -/
theorem illuminateFrom_lit (i j : Nat) (b : Board) (r c : Nat) :
    Lit (illuminateFrom i j b) r c ↔ Lit b r c ∨ (Bulb b i j ∧ Shines b i j r c) := by
  unfold illuminateFrom
  split_ifs with hb
  · have f1 := setLit_sameFrame b i j true
    have f2 := f1.trans (rayDec_sameFrame (fun k => (k, j)) i (setLit b i j true))
    have f3 := f2.trans (rayInc_sameFrame (fun k => (k, j))
      ((rayDec (fun k => (k, j)) i (setLit b i j true)).board_height - (i + 1)) (i + 1) _)
    have f4 := f3.trans (rayDec_sameFrame (fun k => (i, k)) j _)
    simp only [rayInc_lit, rayDec_lit, setLit_lit]
    simp only [f4.white, f3.white, f2.white, f1.white, f4.2.1]
    simp only [f2.1]
    rw [decRay_col_iff, decRay_row_iff, incRay_col_iff, incRay_row_iff]
    unfold Shines Bulb
    simp only [hb, true_and, if_true_right]
    by_cases hrc : r = i ∧ c = j
    · simp [hrc]
    · simp only [hrc, if_false, false_or, or_assoc]
  · constructor
    · exact Or.inl
    · rintro (h | ⟨hb2, -⟩)
      · exact h
      · exact absurd hb2 hb

/-! ## Illumination: the loops -/

theorem forUpTo_sameFrame (body : Nat → Board → Board)
    (hframe : ∀ k b, SameFrame b (body k b)) (n : Nat) (b : Board) :
    SameFrame b (forUpTo body n b) := by
  induction n with
  | zero => exact SameFrame.refl b
  | succ n ih => exact ih.trans (hframe n _)

/-- A loop whose rounds only add light adds the union of what the rounds add. -/
theorem forUpTo_lit (body : Nat → Board → Board) (P : Board → Nat → Nat → Nat → Prop)
    (hframe : ∀ k b, SameFrame b (body k b))
    (hP : ∀ k b b', SameFrame b b' → ∀ r c, (P b' k r c ↔ P b k r c))
    (hlit : ∀ k b r c, Lit (body k b) r c ↔ Lit b r c ∨ P b k r c)
    (n : Nat) (b : Board) (r c : Nat) :
    Lit (forUpTo body n b) r c ↔ Lit b r c ∨ ∃ k, k < n ∧ P b k r c := by
  induction n with
  | zero => simp [forUpTo]
  | succ n ih =>
    show Lit (body n (forUpTo body n b)) r c ↔ _
    rw [hlit, ih, hP n b _ (forUpTo_sameFrame body hframe n b)]
    constructor
    · rintro ((h | ⟨k, hk, hp⟩) | hp)
      · exact Or.inl h
      · exact Or.inr ⟨k, by omega, hp⟩
      · exact Or.inr ⟨n, by omega, hp⟩
    · rintro (h | ⟨k, hk, hp⟩)
      · exact Or.inl (Or.inl h)
      · by_cases hkn : k = n
        · subst hkn; exact Or.inr hp
        · exact Or.inl (Or.inr ⟨k, by omega, hp⟩)

/-- A loop whose rounds only remove light removes the union of what the rounds remove. -/
theorem forUpTo_clear (body : Nat → Board → Board) (Q : Board → Nat → Nat → Nat → Prop)
    (hframe : ∀ k b, SameFrame b (body k b))
    (hQ : ∀ k b b', SameFrame b b' → ∀ r c, (Q b' k r c ↔ Q b k r c))
    (hlit : ∀ k b r c, Lit (body k b) r c ↔ Lit b r c ∧ ¬ Q b k r c)
    (n : Nat) (b : Board) (r c : Nat) :
    Lit (forUpTo body n b) r c ↔ Lit b r c ∧ ¬ ∃ k, k < n ∧ Q b k r c := by
  induction n with
  | zero => simp [forUpTo]
  | succ n ih =>
    show Lit (body n (forUpTo body n b)) r c ↔ _
    rw [hlit, ih, hQ n b _ (forUpTo_sameFrame body hframe n b)]
    constructor
    · rintro ⟨⟨h, hno⟩, hq⟩
      refine ⟨h, ?_⟩
      rintro ⟨k, hk, hp⟩
      by_cases hkn : k = n
      · subst hkn; exact hq hp
      · exact hno ⟨k, by omega, hp⟩
    · rintro ⟨h, hno⟩
      exact ⟨⟨h, fun ⟨k, hk, hp⟩ => hno ⟨k, by omega, hp⟩⟩, fun hp => hno ⟨n, by omega, hp⟩⟩

theorem SameFrame.shoneOn {b b' : Board} (h : SameFrame b b') (r c : Nat) :
    ShoneOn b' r c ↔ ShoneOn b r c := by
  unfold ShoneOn
  simp only [h.1, h.2.1, h.bulb, h.shines]

theorem resetRow_sameFrame (i n : Nat) (b : Board) :
    SameFrame b (forUpTo (fun j b => setLit b i j false) n b) :=
  forUpTo_sameFrame _ (fun _ b => setLit_sameFrame b _ _ _) n b

theorem resetIllumination_sameFrame (b : Board) : SameFrame b (resetIllumination b) :=
  forUpTo_sameFrame _ (fun _ b => resetRow_sameFrame _ _ b) _ b

theorem resetIllumination_lit (b : Board) (r c : Nat) :
    Lit (resetIllumination b) r c ↔
      Lit b r c ∧ ¬ (r < b.board_height ∧ c < b.board_width) := by
  unfold resetIllumination
  rw [forUpTo_clear (fun i b => forUpTo (fun j b => setLit b i j false) b.board_width b)
    (fun b i r c => r = i ∧ c < b.board_width)
    (fun _ b => resetRow_sameFrame _ _ b)
    (fun k b b' h r c => by simp only [h.2.1])]
  · apply and_congr_right
    intro _
    apply not_congr
    constructor
    · rintro ⟨k, hk, rfl, hc⟩; exact ⟨hk, hc⟩
    · rintro ⟨hr, hc⟩; exact ⟨r, hr, rfl, hc⟩
  · intro i b r c
    rw [forUpTo_clear (fun j b => setLit b i j false) (fun _ j r c => r = i ∧ c = j)
      (fun _ b => setLit_sameFrame b _ _ _) (fun _ _ _ _ _ _ => Iff.rfl)]
    · apply and_congr_right
      intro _
      apply not_congr
      constructor
      · rintro ⟨k, hk, rfl, rfl⟩; exact ⟨rfl, hk⟩
      · rintro ⟨hr, hc⟩; exact ⟨c, hc, hr, rfl⟩
    · intro j b r c
      rw [setLit_lit]
      by_cases h : r = i ∧ c = j <;> simp [h]

theorem illuminateRow_sameFrame (i n : Nat) (b : Board) :
    SameFrame b (forUpTo (fun j b => illuminateFrom i j b) n b) :=
  forUpTo_sameFrame _ (fun _ b => illuminateFrom_sameFrame _ _ b) n b

/-- The function `updateIllumination` keeps dimensions, types and bulbs. -/
theorem updateIllumination_sameFrame (b : Board) : SameFrame b (updateIllumination b) :=
  (resetIllumination_sameFrame b).trans
    (forUpTo_sameFrame _ (fun _ b => illuminateRow_sameFrame _ _ b) _ _)

theorem illuminateAll_lit (b : Board) (r c : Nat) :
    Lit (forUpTo (fun i b => forUpTo (fun j b => illuminateFrom i j b) b.board_width b)
        b.board_height b) r c ↔ Lit b r c ∨ ShoneOn b r c := by
  rw [forUpTo_lit (fun i b => forUpTo (fun j b => illuminateFrom i j b) b.board_width b)
    (fun b i r c => ∃ j, j < b.board_width ∧ Bulb b i j ∧ Shines b i j r c)
    (fun _ b => illuminateRow_sameFrame _ _ b)
    (fun k b b' h r c => by simp only [h.2.1, h.bulb, h.shines])]
  · rfl
  · intro i b r c
    rw [forUpTo_lit (fun j b => illuminateFrom i j b)
      (fun b j r c => Bulb b i j ∧ Shines b i j r c)
      (fun _ b => illuminateFrom_sameFrame _ _ b)
      (fun k b b' h r c => by simp only [h.bulb, h.shines])
      (fun j b r c => illuminateFrom_lit i j b r c)]

/-- After `updateIllumination` a cell is lit exactly when some bulb of the board shines
on it, or it lies outside the board and was lit before. -/
theorem updateIllumination_lit (b : Board) (r c : Nat) :
    Lit (updateIllumination b) r c ↔
      (Lit b r c ∧ ¬ (r < b.board_height ∧ c < b.board_width)) ∨ ShoneOn b r c := by
  unfold updateIllumination
  simp only []
  rw [illuminateAll_lit, resetIllumination_lit, (resetIllumination_sameFrame b).shoneOn]

/-! ## Illumination: theorems -/

theorem shoneOn_iff_illuminated (b : Board) (r c : Nat)
    (hr : r < b.board_height) (hc : c < b.board_width) :
    ShoneOn b r c ↔ Illuminated b r c := by
  unfold ShoneOn Illuminated Shines Between
  constructor
  · rintro ⟨i, hi, j, hj, hb, hs⟩
    rcases hs with ⟨rfl, rfl⟩ | ⟨rfl, h1, h2⟩ | ⟨rfl, h1, -, h2⟩ | ⟨rfl, h1, h2⟩ | ⟨rfl, h1, -, h2⟩
    · exact Or.inl hb
    · refine Or.inr (Or.inl ⟨i, hi, hb, fun m hm => ?_⟩)
      rcases hm with ⟨h3, h4⟩ | ⟨h3, h4⟩
      · omega
      · exact h2 m h3 h4
    · refine Or.inr (Or.inl ⟨i, hi, hb, fun m hm => ?_⟩)
      rcases hm with ⟨h3, h4⟩ | ⟨h3, h4⟩
      · exact h2 m h3 h4
      · omega
    · refine Or.inr (Or.inr ⟨j, hj, hb, fun m hm => ?_⟩)
      rcases hm with ⟨h3, h4⟩ | ⟨h3, h4⟩
      · omega
      · exact h2 m h3 h4
    · refine Or.inr (Or.inr ⟨j, hj, hb, fun m hm => ?_⟩)
      rcases hm with ⟨h3, h4⟩ | ⟨h3, h4⟩
      · exact h2 m h3 h4
      · omega
  · rintro (hb | ⟨i, hi, hb, hall⟩ | ⟨j, hj, hb, hall⟩)
    · exact ⟨r, hr, c, hc, hb, Or.inl ⟨rfl, rfl⟩⟩
    · refine ⟨i, hi, c, hc, hb, ?_⟩
      rcases Nat.lt_trichotomy i r with h | h | h
      · exact Or.inr (Or.inr (Or.inl ⟨rfl, h, hr, fun m h1 h2 => hall m (Or.inl ⟨h1, h2⟩)⟩))
      · exact Or.inl ⟨h.symm, rfl⟩
      · exact Or.inr (Or.inl ⟨rfl, h, fun m h1 h2 => hall m (Or.inr ⟨h1, h2⟩)⟩)
    · refine ⟨r, hr, j, hj, hb, ?_⟩
      rcases Nat.lt_trichotomy j c with h | h | h
      · exact Or.inr (Or.inr (Or.inr (Or.inr
          ⟨rfl, h, hc, fun m h1 h2 => hall m (Or.inl ⟨h1, h2⟩)⟩)))
      · exact Or.inl ⟨rfl, h.symm⟩
      · exact Or.inr (Or.inr (Or.inr (Or.inl
          ⟨rfl, h, fun m h1 h2 => hall m (Or.inr ⟨h1, h2⟩)⟩)))

theorem board_eq_of {b1 b2 : Board} (hh : b1.board_height = b2.board_height)
    (hw : b1.board_width = b2.board_width) (hb : ∀ r c, b1.board r c = b2.board r c) :
    b1 = b2 := by
  cases b1; cases b2
  simp only [Board.mk.injEq]
  exact ⟨hh, hw, funext fun r => funext fun c => hb r c⟩

theorem cell_eq_of {x y : Cell} (ht : x.type = y.type) (hl : x.has_light = y.has_light)
    (hi : x.is_lit = true ↔ y.is_lit = true) : x = y := by
  cases x; cases y
  simp only [Cell.mk.injEq]
  exact ⟨ht, hl, Bool.eq_iff_iff.mpr hi⟩

/-- Inside the board, `updateIllumination` lights exactly the illuminated cells. -/
theorem updateIllumination_lit_inRange (b : Board) (r c : Nat)
    (hr : r < b.board_height) (hc : c < b.board_width) :
    Lit (updateIllumination b) r c ↔ Illuminated b r c := by
  rw [← shoneOn_iff_illuminated b r c hr hc, updateIllumination_lit]
  constructor
  · rintro (⟨-, hn⟩ | h)
    · exact absurd ⟨hr, hc⟩ hn
    · exact h
  · exact Or.inr

/-- C2: after `updateIllumination` a cell of the board is lit exactly when it holds a
bulb, or some bulb in its column or in its row has only white cells from the
bulb (exclusive) to the cell (inclusive); so a cell no bulb reaches is not lit. -/
theorem updateIllumination_exact (b : Board) (r c : Nat)
    (hr : r < b.board_height) (hc : c < b.board_width) :
    (((updateIllumination b).board r c).is_lit = true ↔ Illuminated b r c)
      ∧ (¬ Illuminated b r c → ((updateIllumination b).board r c).is_lit = false) := by
  have key : ((updateIllumination b).board r c).is_lit = true ↔ Illuminated b r c :=
    updateIllumination_lit_inRange b r c hr hc
  refine ⟨key, fun hn => ?_⟩
  rw [← key] at hn
  simpa using hn

/-- Witness of C2: on the 1×3 white board with a bulb at column 0, cell (0, 2) is lit
after propagation, hence reached by a bulb. -/
theorem updateIllumination_exact_witness : Illuminated bulbRow 0 2 :=
  (updateIllumination_exact bulbRow 0 2 (by decide) (by decide)).1.mp (by decide)

/-- C10: `updateIllumination` is idempotent: a second pass returns the same board. -/
theorem updateIllumination_idempotent (b : Board) :
    updateIllumination (updateIllumination b) = updateIllumination b := by
  have f := updateIllumination_sameFrame b
  have f2 := updateIllumination_sameFrame (updateIllumination b)
  refine board_eq_of f2.1 f2.2.1 (fun r c => cell_eq_of (f2.2.2 r c).1 (f2.2.2 r c).2 ?_)
  have h2 := updateIllumination_lit (updateIllumination b) r c
  have h1 := updateIllumination_lit b r c
  unfold Lit at h1 h2
  rw [h2, f.shoneOn, f.1, f.2.1, h1]
  constructor
  · rintro (⟨h | h, hn⟩ | h)
    · exact Or.inl h
    · exact Or.inr h
    · exact Or.inr h
  · rintro (h | h)
    · exact Or.inl ⟨Or.inl h, h.2⟩
    · exact Or.inr h

/-! ## Evaluation: scans and counts -/

/-- A scan towards index 0 returns exactly when it meets a bulb after white cells only. -/
theorem scanDec_iff (b : Board) (pos : Nat → Nat × Nat) (k : Nat) :
    scanDec b pos k = true ↔
      ∃ m, m < k ∧ Bulb b (pos m).1 (pos m).2
        ∧ ∀ m', m < m' → m' < k → White b (pos m').1 (pos m').2 := by
  induction k with
  | zero => simp [scanDec]
  | succ k ih =>
    unfold scanDec
    split_ifs with hl hw
    · simp only [true_iff]
      exact ⟨k, by omega, hl, fun m' h1 h2 => by omega⟩
    · simp only [Bool.false_eq_true, false_iff]
      rintro ⟨m, hm, hb, hall⟩
      by_cases hk : m = k
      · subst hk; exact hl hb
      · exact hw (hall k (by omega) (by omega))
    · rw [ih]
      constructor
      · rintro ⟨m, hm, hb, hall⟩
        refine ⟨m, by omega, hb, fun m' h1 h2 => ?_⟩
        by_cases hk : m' = k
        · subst hk; exact not_not.mp hw
        · exact hall m' h1 (by omega)
      · rintro ⟨m, hm, hb, hall⟩
        by_cases hk : m = k
        · subst hk; exact absurd hb hl
        · exact ⟨m, by omega, hb, fun m' h1 h2 => hall m' h1 (by omega)⟩

/-- A scan towards the far edge returns exactly when it meets a bulb after white cells
only. -/
theorem scanInc_iff (b : Board) (pos : Nat → Nat × Nat) (n k : Nat) :
    scanInc b pos n k = true ↔
      ∃ m, k ≤ m ∧ m < k + n ∧ Bulb b (pos m).1 (pos m).2
        ∧ ∀ m', k ≤ m' → m' < m → White b (pos m').1 (pos m').2 := by
  induction n generalizing k with
  | zero =>
    simp only [scanInc, Bool.false_eq_true, add_zero, false_iff]
    rintro ⟨m, h1, h2, -⟩
    omega
  | succ n ih =>
    unfold scanInc
    split_ifs with hl hw
    · simp only [true_iff]
      exact ⟨k, by omega, by omega, hl, fun m' h1 h2 => by omega⟩
    · simp only [Bool.false_eq_true, false_iff]
      rintro ⟨m, hm, hm2, hb, hall⟩
      by_cases hk : m = k
      · subst hk; exact hl hb
      · exact hw (hall k (by omega) (by omega))
    · rw [ih]
      constructor
      · rintro ⟨m, hm, hm2, hb, hall⟩
        refine ⟨m, by omega, by omega, hb, fun m' h1 h2 => ?_⟩
        by_cases hk : m' = k
        · subst hk; exact not_not.mp hw
        · exact hall m' (by omega) h2
      · rintro ⟨m, hm, hm2, hb, hall⟩
        by_cases hk : m = k
        · subst hk; exact absurd hb hl
        · exact ⟨m, by omega, by omega, hb, fun m' h1 h2 => hall m' (by omega) h2⟩

theorem lightScan_iff (b : Board) (i j : Nat) :
    lightScan b i j = true ↔ ReachesBulb b i j := by
  unfold lightScan ReachesBulb
  simp only [Bool.or_eq_true, scanDec_iff, scanInc_iff, or_assoc]
  refine or_congr Iff.rfl (or_congr ?_ (or_congr Iff.rfl ?_))
  · constructor
    · rintro ⟨m, h1, h2, hb, hall⟩
      exact ⟨m, by omega, by omega, hb, fun m' h3 h4 => hall m' (by omega) h4⟩
    · rintro ⟨m, h1, h2, hb, hall⟩
      exact ⟨m, by omega, by omega, hb, fun m' h3 h4 => hall m' (by omega) h4⟩
  · constructor
    · rintro ⟨m, h1, h2, hb, hall⟩
      exact ⟨m, by omega, by omega, hb, fun m' h3 h4 => hall m' (by omega) h4⟩
    · rintro ⟨m, h1, h2, hb, hall⟩
      exact ⟨m, by omega, by omega, hb, fun m' h3 h4 => hall m' (by omega) h4⟩

/-- The four guarded neighbour tests count the in-range neighbours holding a bulb. -/
theorem adjacentLights_eq (b : Board) (i j : Nat)
    (hi : i < b.board_height) (hj : j < b.board_width) :
    adjacentLights b i j = neighbourBulbs b i j := by
  unfold adjacentLights neighbourBulbs neighbours
  have e1 : i < b.board_height - 1 ↔ i + 1 < b.board_height := by omega
  have e2 : j < b.board_width - 1 ↔ j + 1 < b.board_width := by omega
  simp only [e1, e2]
  by_cases h1 : 0 < i <;> by_cases h2 : 0 < j <;>
    by_cases h3 : i + 1 < b.board_height <;> by_cases h4 : j + 1 < b.board_width <;>
    simp [h1, h2, h3, h4, hi, hj, List.filter_cons, show i - 1 < b.board_height by omega,
      show j - 1 < b.board_width by omega] <;>
    split_ifs <;> simp

theorem numberCheck_iff (t : CellType) (a : Nat) :
    (isNumbered t = true ∧ (a : Int) ≠ requiredLights t) ↔ ∃ n, clue t = some n ∧ a ≠ n := by
  cases t <;> simp [isNumbered, requiredLights, clue, CellType.code] <;> omega

/-! ## Evaluation: the loops -/

theorem checkCell_eq (b : Board) (i j : Nat) (a : Bool) :
    checkCell b i j a =
      match cellVerdict b i j with
      | some v => .error v
      | none => .ok (cellFlag b i j a) := by
  unfold checkCell cellVerdict cellFlag
  split_ifs <;> rfl

/-- A returning loop whose rounds return independently of the state returns the first
verdict, and otherwise runs the state updates of all rounds. -/
theorem forUpToE_eq {σ : Type} (body : Nat → σ → Except Int σ) (verdict : Nat → Option Int)
    (upd : Nat → σ → σ)
    (h : ∀ k s, body k s =
      match verdict k with
      | some v => .error v
      | none => .ok (upd k s))
    (n : Nat) (s : σ) :
    forUpToE body n s =
      match firstVerdict verdict n with
      | some v => .error v
      | none => .ok (forUpTo upd n s) := by
  induction n with
  | zero => rfl
  | succ n ih =>
    unfold forUpToE firstVerdict
    rw [ih]
    cases hfv : firstVerdict verdict n with
    | none => simp only [h]; rfl
    | some v => rfl

theorem firstVerdict_none_iff (verdict : Nat → Option Int) (n : Nat) :
    firstVerdict verdict n = none ↔ ∀ k, k < n → verdict k = none := by
  induction n with
  | zero => simp [firstVerdict]
  | succ n ih =>
    unfold firstVerdict
    cases hfv : firstVerdict verdict n with
    | none =>
      simp only
      rw [hfv] at ih
      have ih' := ih.mp rfl
      constructor
      · intro h k hk
        by_cases hkn : k = n
        · subst hkn; exact h
        · exact ih' k (by omega)
      · intro h; exact h n (by omega)
    | some v =>
      rw [hfv] at ih
      constructor
      · intro h; exact absurd h (by simp)
      · intro h
        exact absurd (ih.mpr (fun k hk => h k (by omega))) (by simp)

theorem firstVerdict_some_iff (verdict : Nat → Option Int) (n : Nat) (v : Int) :
    firstVerdict verdict n = some v ↔
      ∃ k, k < n ∧ verdict k = some v ∧ ∀ k', k' < k → verdict k' = none := by
  induction n generalizing v with
  | zero => simp [firstVerdict]
  | succ n ih =>
    unfold firstVerdict
    cases hfv : firstVerdict verdict n with
    | none =>
      simp only
      have hnone := (firstVerdict_none_iff verdict n).mp hfv
      constructor
      · intro h; exact ⟨n, by omega, h, hnone⟩
      · rintro ⟨k, hk, hv, -⟩
        by_cases hkn : k = n
        · subst hkn; exact hv
        · have := hnone k (by omega)
          rw [this] at hv; exact absurd hv (by simp)
    | some v' =>
      simp only
      constructor
      · intro h
        obtain ⟨k, hk, hv, hall⟩ := (ih v).mp (hfv.trans h)
        exact ⟨k, by omega, hv, hall⟩
      · rintro ⟨k, hk, hv, hall⟩
        by_cases hkn : k = n
        · subst hkn
          obtain ⟨k0, hk0, hv0, -⟩ := (ih v').mp hfv
          have := hall k0 hk0
          rw [this] at hv0; exact absurd hv0 (by simp)
        · exact hfv.symm.trans ((ih v).mpr ⟨k, by omega, hv, hall⟩)

theorem forUpTo_flag (upd : Nat → Bool → Bool) (D : Nat → Prop)
    (h : ∀ k a, upd k a = true ↔ a = true ∧ ¬ D k) (n : Nat) (a : Bool) :
    forUpTo upd n a = true ↔ a = true ∧ ∀ k, k < n → ¬ D k := by
  induction n with
  | zero => simp [forUpTo]
  | succ n ih =>
    show upd n (forUpTo upd n a) = true ↔ _
    rw [h, ih]
    constructor
    · rintro ⟨⟨ha, hall⟩, hn⟩
      refine ⟨ha, fun k hk => ?_⟩
      by_cases hkn : k = n
      · subst hkn; exact hn
      · exact hall k (by omega)
    · rintro ⟨ha, hall⟩
      exact ⟨⟨ha, fun k hk => hall k (by omega)⟩, hall n (by omega)⟩

theorem cellFlag_iff (b : Board) (i j : Nat) (a : Bool) :
    cellFlag b i j a = true ↔ a = true ∧ ¬ (White b i j ∧ ¬ Lit b i j) := by
  unfold cellFlag White Lit
  split_ifs with h
  · simp [h.1, h.2]
  · constructor
    · intro ha
      refine ⟨ha, fun hd => h ⟨hd.1, ?_⟩⟩
      simpa using hd.2
    · exact fun ha => ha.1

theorem flags_iff (b : Board) :
    forUpTo (fun i a => forUpTo (fun j a => cellFlag b i j a) b.board_width a)
        b.board_height true = true ↔ AllWhiteLit b := by
  rw [forUpTo_flag _ (fun i => ∃ j, j < b.board_width ∧ White b i j ∧ ¬ Lit b i j)]
  · unfold AllWhiteLit
    simp only [true_and]
    constructor
    · intro h i j hi hj hw
      by_contra hl
      exact h i hi ⟨j, hj, hw, hl⟩
    · rintro h i hi ⟨j, hj, hw, hl⟩
      exact hl (h i j hi hj hw)
  · intro i a
    rw [forUpTo_flag _ (fun j => White b i j ∧ ¬ Lit b i j) (fun j a => cellFlag_iff b i j a)]
    apply and_congr_right
    intro _
    constructor
    · rintro h ⟨j, hj, hd⟩; exact h j hj hd
    · intro h j hj hd; exact h ⟨j, hj, hd⟩

/-- The function `checkPuzzleState` in closed form: the first verdict in row-major order,
or else the final value of `all_white_lit`. -/
theorem checkPuzzleState_eq (b : Board) :
    checkPuzzleState b =
      match firstVerdict (fun i => firstVerdict (cellVerdict b i) b.board_width)
          b.board_height with
      | some v => v
      | none =>
        if forUpTo (fun i a => forUpTo (fun j a => cellFlag b i j a) b.board_width a)
            b.board_height true = true then 1 else 0 := by
  unfold checkPuzzleState
  rw [forUpToE_eq (fun i a => forUpToE (fun j a => checkCell b i j a) b.board_width a)
    (fun i => firstVerdict (cellVerdict b i) b.board_width)
    (fun i a => forUpTo (fun j a => cellFlag b i j a) b.board_width a)
    (fun i a => forUpToE_eq _ _ _ (fun j a => checkCell_eq b i j a) b.board_width a)]
  cases firstVerdict (fun i => firstVerdict (cellVerdict b i) b.board_width) b.board_height
    <;> rfl

theorem lightCheck_iff (b : Board) (i j : Nat) :
    (((b.board i j).has_light && (b.board i j).is_lit) = true ∧ lightScan b i j = true)
      ↔ LightViolating b i j := by
  unfold LightViolating Bulb Lit
  rw [lightScan_iff, Bool.and_eq_true, and_assoc]

theorem numberCheck_cell_iff (b : Board) (i j : Nat)
    (hi : i < b.board_height) (hj : j < b.board_width) :
    (isNumbered (b.board i j).type = true
        ∧ (adjacentLights b i j : Int) ≠ requiredLights (b.board i j).type)
      ↔ NumberViolating b i j := by
  unfold NumberViolating
  rw [numberCheck_iff, adjacentLights_eq b i j hi hj]

theorem verdict_cases (P Q : Prop) [Decidable P] [Decidable Q] :
    ((if P then some (-1 : Int) else if Q then some (-2) else none) = some (-1) ↔ P)
      ∧ ((if P then some (-1 : Int) else if Q then some (-2) else none) = some (-2)
          ↔ ¬ P ∧ Q)
      ∧ ((if P then some (-1 : Int) else if Q then some (-2) else none) = none
          ↔ ¬ (P ∨ Q)) := by
  by_cases hp : P <;> by_cases hq : Q <;> simp [hp, hq]

theorem cellVerdict_light (b : Board) (i j : Nat) :
    cellVerdict b i j = some (-1) ↔ LightViolating b i j :=
  (verdict_cases _ _).1.trans (lightCheck_iff b i j)

theorem cellVerdict_number (b : Board) (i j : Nat)
    (hi : i < b.board_height) (hj : j < b.board_width) :
    cellVerdict b i j = some (-2) ↔ ¬ LightViolating b i j ∧ NumberViolating b i j :=
  (verdict_cases _ _).2.1.trans
    (and_congr (not_congr (lightCheck_iff b i j)) (numberCheck_cell_iff b i j hi hj))

theorem cellVerdict_none (b : Board) (i j : Nat)
    (hi : i < b.board_height) (hj : j < b.board_width) :
    cellVerdict b i j = none ↔ ¬ Violating b i j :=
  (verdict_cases _ _).2.2.trans
    (not_congr (or_congr (lightCheck_iff b i j) (numberCheck_cell_iff b i j hi hj)))

theorem verdict_first_iff (b : Board) (v : Int) :
    firstVerdict (fun i => firstVerdict (cellVerdict b i) b.board_width) b.board_height
        = some v ↔
      ∃ i j, i < b.board_height ∧ j < b.board_width ∧ cellVerdict b i j = some v
        ∧ ∀ i' j', i' < b.board_height → j' < b.board_width → Precedes i' j' i j →
            cellVerdict b i' j' = none := by
  rw [firstVerdict_some_iff]
  simp only [firstVerdict_some_iff, firstVerdict_none_iff]
  constructor
  · rintro ⟨i, hi, ⟨j, hj, hv, hrow⟩, hrows⟩
    refine ⟨i, j, hi, hj, hv, fun i' j' hi' hj' hp => ?_⟩
    rcases hp with hp | ⟨rfl, hp⟩
    · exact hrows i' hp j' hj'
    · exact hrow j' hp
  · rintro ⟨i, j, hi, hj, hv, hall⟩
    exact ⟨i, hi, ⟨j, hj, hv, fun j' hj' => hall i j' hi (by omega) (Or.inr ⟨rfl, hj'⟩)⟩,
      fun i' hi' j' hj' => hall i' j' (by omega) hj' (Or.inl hi')⟩

theorem verdict_none_iff (b : Board) :
    firstVerdict (fun i => firstVerdict (cellVerdict b i) b.board_width) b.board_height
        = none ↔ NoViolation b := by
  rw [firstVerdict_none_iff]
  simp only [firstVerdict_none_iff]
  unfold NoViolation
  constructor
  · intro h i j hi hj
    exact (cellVerdict_none b i j hi hj).mp (h i hi j hj)
  · intro h i hi j hj
    exact (cellVerdict_none b i j hi hj).mpr (h i j hi hj)

theorem cellVerdict_values (b : Board) (i j : Nat) (v : Int)
    (h : cellVerdict b i j = some v) : v = -1 ∨ v = -2 := by
  unfold cellVerdict at h
  split_ifs at h <;> simp at h <;> omega

theorem checkPuzzleState_conflict_iff (b : Board) (v : Int) (hv : v = -1 ∨ v = -2) :
    checkPuzzleState b = v ↔
      firstVerdict (fun i => firstVerdict (cellVerdict b i) b.board_width) b.board_height
        = some v := by
  rw [checkPuzzleState_eq]
  cases hfv : firstVerdict (fun i => firstVerdict (cellVerdict b i) b.board_width)
      b.board_height with
  | none =>
    simp only
    split_ifs <;> constructor <;> intro h <;> first | omega | simp at h
  | some v' => simp

/-! ## Evaluation: theorems -/

theorem SameFrame.reachesBulb {b b' : Board} (h : SameFrame b b') (i j : Nat) :
    ReachesBulb b' i j ↔ ReachesBulb b i j := by
  unfold ReachesBulb
  simp only [h.white, h.bulb, h.1, h.2.1]

theorem SameFrame.neighbourBulbs {b b' : Board} (h : SameFrame b b') (i j : Nat) :
    neighbourBulbs b' i j = neighbourBulbs b i j := by
  unfold Akari.neighbourBulbs
  simp only [h.1, h.2.1, (h.2.2 _ _).2]

theorem SameFrame.numberViolating {b b' : Board} (h : SameFrame b b') (i j : Nat) :
    NumberViolating b' i j ↔ NumberViolating b i j := by
  unfold NumberViolating
  rw [h.neighbourBulbs, (h.2.2 i j).1]

/-- The solved code is returned exactly on boards without violation whose white cells
are all lit. -/
theorem checkPuzzleState_solved_iff (b : Board) :
    checkPuzzleState b = 1 ↔ NoViolation b ∧ AllWhiteLit b := by
  rw [checkPuzzleState_eq, ← verdict_none_iff, ← flags_iff]
  cases hfv : firstVerdict (fun i => firstVerdict (cellVerdict b i) b.board_width)
      b.board_height with
  | none =>
    simp only [true_and]
    split_ifs with h <;> simp [h]
  | some v =>
    obtain ⟨i, j, -, -, hv, -⟩ := (verdict_first_iff b v).mp hfv
    have := cellVerdict_values b i j v hv
    simp only [false_and, iff_false, reduceCtorEq]
    omega

/-- The in-progress code is returned exactly on boards without violation that have an
unlit white cell. -/
theorem checkPuzzleState_inProgress_iff (b : Board) :
    checkPuzzleState b = 0 ↔ NoViolation b ∧ ¬ AllWhiteLit b := by
  rw [checkPuzzleState_eq, ← verdict_none_iff, ← flags_iff]
  cases hfv : firstVerdict (fun i => firstVerdict (cellVerdict b i) b.board_width)
      b.board_height with
  | none =>
    simp only [true_and]
    split_ifs with h <;> simp [h]
  | some v =>
    obtain ⟨i, j, -, -, hv, -⟩ := (verdict_first_iff b v).mp hfv
    have := cellVerdict_values b i j v hv
    simp only [false_and, iff_false, reduceCtorEq]
    omega

/-- C3: `checkPuzzleState` returns the light-conflict code exactly when the first
violating cell in row-major order is light-violating, and the number-conflict
code exactly when that first violating cell is number-violating and not
light-violating.  After propagation the 1×3 white board with bulbs at columns 0
and 2 gives the light-conflict code, and the board `"W0W"` with a bulb next to
the 0 (on either side) gives the number-conflict code. -/
theorem first_violation_wins :
    (∀ b : Board,
        (checkPuzzleState b = LightConflict ↔
            ∃ i j, FirstViolating b i j ∧ LightViolating b i j)
        ∧ (checkPuzzleState b = NumberConflict ↔
            ∃ i j, FirstViolating b i j ∧ NumberViolating b i j ∧ ¬ LightViolating b i j))
      ∧ checkPuzzleState (updateIllumination twoBulbRow) = LightConflict
      ∧ checkPuzzleState (updateIllumination (placeLight zeroRow 0 0).2) = NumberConflict
      ∧ checkPuzzleState (updateIllumination (placeLight zeroRow 0 2).2) = NumberConflict := by
  refine ⟨fun b => ⟨?_, ?_⟩, by decide, by decide, by decide⟩
  · show checkPuzzleState b = -1 ↔ _
    rw [checkPuzzleState_conflict_iff b (-1) (Or.inl rfl), verdict_first_iff]
    constructor
    · rintro ⟨i, j, hi, hj, hv, hall⟩
      have hl := (cellVerdict_light b i j).mp hv
      exact ⟨i, j, ⟨hi, hj, Or.inl hl, fun i' j' hi' hj' hp =>
        (cellVerdict_none b i' j' hi' hj').mp (hall i' j' hi' hj' hp)⟩, hl⟩
    · rintro ⟨i, j, ⟨hi, hj, -, hall⟩, hl⟩
      exact ⟨i, j, hi, hj, (cellVerdict_light b i j).mpr hl, fun i' j' hi' hj' hp =>
        (cellVerdict_none b i' j' hi' hj').mpr (hall i' j' hi' hj' hp)⟩
  · show checkPuzzleState b = -2 ↔ _
    rw [checkPuzzleState_conflict_iff b (-2) (Or.inr rfl), verdict_first_iff]
    constructor
    · rintro ⟨i, j, hi, hj, hv, hall⟩
      have hn := (cellVerdict_number b i j hi hj).mp hv
      exact ⟨i, j, ⟨hi, hj, Or.inr hn.2, fun i' j' hi' hj' hp =>
        (cellVerdict_none b i' j' hi' hj').mp (hall i' j' hi' hj' hp)⟩, hn.2, hn.1⟩
    · rintro ⟨i, j, ⟨hi, hj, -, hall⟩, hn, hl⟩
      exact ⟨i, j, hi, hj, (cellVerdict_number b i j hi hj).mpr ⟨hl, hn⟩,
        fun i' j' hi' hj' hp =>
          (cellVerdict_none b i' j' hi' hj').mpr (hall i' j' hi' hj' hp)⟩

/-- C4: on a board without a light-violating or number-violating cell,
`checkPuzzleState` returns the solved code when every white cell is lit and the
in-progress code otherwise; in-progress is returned exactly when there is no
violation and some white cell is unlit.  The board `"W W"` is in progress when
empty and solved after a bulb at column 1 and a propagation. -/
theorem no_conflict_outcome :
    (∀ b : Board, NoViolation b →
        (AllWhiteLit b → checkPuzzleState b = Solved)
          ∧ (¬ AllWhiteLit b → checkPuzzleState b = InProgress))
      ∧ (∀ b : Board, checkPuzzleState b = InProgress ↔ NoViolation b ∧ ¬ AllWhiteLit b)
      ∧ checkPuzzleState gapRow = InProgress
      ∧ (placeLight gapRow 0 1).1 = true
      ∧ checkPuzzleState (updateIllumination gapSolved) = Solved := by
  refine ⟨fun b hno => ⟨fun hall => ?_, fun hall => ?_⟩, fun b => ?_,
    by decide, by decide, by decide⟩
  · exact (checkPuzzleState_solved_iff b).mpr ⟨hno, hall⟩
  · exact (checkPuzzleState_inProgress_iff b).mpr ⟨hno, hall⟩
  · exact checkPuzzleState_inProgress_iff b

/-! ## Propagation followed by evaluation -/

theorem illuminated_iff_seesBulb (b : Board) (hinv : BulbsOnWhite b) (r c : Nat)
    (hr : r < b.board_height) (hc : c < b.board_width) :
    Illuminated b r c ↔ SeesBulb b r c := by
  unfold Illuminated SeesBulb
  refine or_congr Iff.rfl (or_congr ?_ ?_)
  · constructor
    · rintro ⟨i, hi, hb, hall⟩
      refine ⟨i, hi, hb, fun m hm => ?_⟩
      by_cases hmi : m = i
      · subst hmi; exact hinv m hi c hc hb
      · exact hall m (by unfold Between; unfold Span at hm; omega)
    · rintro ⟨i, hi, hb, hall⟩
      exact ⟨i, hi, hb, fun m hm => hall m (by unfold Span; unfold Between at hm; omega)⟩
  · constructor
    · rintro ⟨j, hj, hb, hall⟩
      refine ⟨j, hj, hb, fun m hm => ?_⟩
      by_cases hmj : m = j
      · subst hmj; exact hinv r hr m hj hb
      · exact hall m (by unfold Between; unfold Span at hm; omega)
    · rintro ⟨j, hj, hb, hall⟩
      exact ⟨j, hj, hb, fun m hm => hall m (by unfold Span; unfold Between at hm; omega)⟩

theorem allWhiteLit_update_iff (b : Board) (hinv : BulbsOnWhite b) :
    AllWhiteLit (updateIllumination b) ↔ EveryWhiteLit b := by
  have f := updateIllumination_sameFrame b
  unfold AllWhiteLit EveryWhiteLit
  simp only [f.1, f.2.1, f.white]
  constructor
  · intro h r c hr hc hw
    exact (illuminated_iff_seesBulb b hinv r c hr hc).mp
      ((updateIllumination_lit_inRange b r c hr hc).mp (h r c hr hc hw))
  · intro h r c hr hc hw
    exact (updateIllumination_lit_inRange b r c hr hc).mpr
      ((illuminated_iff_seesBulb b hinv r c hr hc).mpr (h r c hr hc hw))

theorem lightViolating_update_iff (b : Board) (i j : Nat)
    (hi : i < b.board_height) (hj : j < b.board_width) :
    LightViolating (updateIllumination b) i j ↔ Bulb b i j ∧ ReachesBulb b i j := by
  have f := updateIllumination_sameFrame b
  unfold LightViolating
  rw [f.bulb, f.reachesBulb, updateIllumination_lit_inRange b i j hi hj]
  constructor
  · rintro ⟨hb, -, hr⟩; exact ⟨hb, hr⟩
  · rintro ⟨hb, hr⟩; exact ⟨hb, Or.inl hb, hr⟩

theorem bulbsConflict_iff (b : Board) :
    BulbsConflict b ↔
      ∃ i j, i < b.board_height ∧ j < b.board_width ∧ Bulb b i j ∧ ReachesBulb b i j := by
  unfold BulbsConflict ReachesBulb
  constructor
  · rintro (⟨i, i', j, hlt, hi', hj, hb, hb', hall⟩ | ⟨i, j, j', hlt, hj', hi, hb, hb', hall⟩)
    · exact ⟨i, j, by omega, hj, hb, Or.inr (Or.inl ⟨i', hlt, hi', hb', hall⟩)⟩
    · exact ⟨i, j, hi, by omega, hb, Or.inr (Or.inr (Or.inr ⟨j', hlt, hj', hb', hall⟩))⟩
  · rintro ⟨i, j, hi, hj, hb, h⟩
    rcases h with ⟨k, hk, hb', hall⟩ | ⟨k, hk, hk2, hb', hall⟩ | ⟨k, hk, hb', hall⟩
      | ⟨k, hk, hk2, hb', hall⟩
    · exact Or.inl ⟨k, i, j, hk, hi, hj, hb', hb, hall⟩
    · exact Or.inl ⟨i, k, j, hk, hk2, hj, hb, hb', hall⟩
    · exact Or.inr ⟨i, k, j, hk, hj, hi, hb', hb, hall⟩
    · exact Or.inr ⟨i, j, k, hk, hk2, hi, hb, hb', hall⟩

theorem noViolation_update_iff (b : Board) :
    NoViolation (updateIllumination b) ↔ ¬ BulbsConflict b ∧ CluesMet b := by
  have f := updateIllumination_sameFrame b
  unfold NoViolation Violating CluesMet
  rw [bulbsConflict_iff]
  simp only [f.1, f.2.1, f.numberViolating]
  constructor
  · intro h
    refine ⟨?_, fun i j hi hj n hn => ?_⟩
    · rintro ⟨i, j, hi, hj, hb⟩
      exact h i j hi hj (Or.inl ((lightViolating_update_iff b i j hi hj).mpr hb))
    · by_contra hne
      exact h i j hi hj (Or.inr ⟨n, hn, hne⟩)
  · rintro ⟨h1, h2⟩ i j hi hj hv
    rcases hv with hv | ⟨n, hn, hne⟩
    · exact h1 ⟨i, j, hi, hj, (lightViolating_update_iff b i j hi hj).mp hv⟩
    · exact hne (h2 i j hi hj n hn)

/-- C1: on a board with bulbs only on white cells, `checkPuzzleState` after
`updateIllumination` returns the solved code exactly when the placement is a
valid solution: every white cell sees a bulb, no two bulbs see each other, and
every numbered cell has exactly its number of neighbouring bulbs.  In particular
a violating cell on the propagated board excludes the solved code, whether or not
all white cells are lit. -/
theorem solved_iff_valid (b : Board) (hinv : BulbsOnWhite b) :
    (checkPuzzleState (updateIllumination b) = Solved ↔ ValidSolution b)
      ∧ ((∃ i j, i < b.board_height ∧ j < b.board_width
            ∧ Violating (updateIllumination b) i j) →
          checkPuzzleState (updateIllumination b) ≠ Solved) := by
  have f := updateIllumination_sameFrame b
  constructor
  · show checkPuzzleState (updateIllumination b) = 1 ↔ _
    rw [checkPuzzleState_solved_iff, noViolation_update_iff, allWhiteLit_update_iff b hinv]
    unfold ValidSolution
    constructor
    · rintro ⟨⟨h1, h2⟩, h3⟩; exact ⟨h3, h1, h2⟩
    · rintro ⟨h3, h1, h2⟩; exact ⟨⟨h1, h2⟩, h3⟩
  · rintro ⟨i, j, hi, hj, hv⟩ hs
    have hno := ((checkPuzzleState_solved_iff (updateIllumination b)).mp hs).1
    exact hno i j (by rw [f.1]; exact hi) (by rw [f.2.1]; exact hj) hv

/-- Witness of C1: the board `"W W"` with a bulb at column 1 evaluates to solved after
propagation, hence is a valid solution. -/
theorem solved_iff_valid_witness : BulbsOnWhite gapSolved ∧ ValidSolution gapSolved :=
  ⟨by decide, (solved_iff_valid gapSolved (by decide)).1.mp (by decide)⟩

/-! ## Bulbs and the board invariant -/

theorem placeLight_snd_cases (b : Board) (row col : Int) :
    ((placeLight b row col).1 = false ∧ (placeLight b row col).2 = b)
      ∨ ((placeLight b row col).1 = true
          ∧ (placeLight b row col).2 = setLight b row.toNat col.toNat true
          ∧ row.toNat < b.board_height ∧ col.toNat < b.board_width
          ∧ White b row.toNat col.toNat) := by
  unfold placeLight White
  split_ifs with h1 h2 h3
  · exact Or.inl ⟨rfl, rfl⟩
  · exact Or.inl ⟨rfl, rfl⟩
  · exact Or.inl ⟨rfl, rfl⟩
  · exact Or.inr ⟨rfl, rfl, by omega, by omega, not_not.mp h2⟩

theorem removeLight_snd_cases (b : Board) (row col : Int) :
    (removeLight b row col).2 = b
      ∨ (removeLight b row col).2 = setLight b row.toNat col.toNat false := by
  unfold removeLight
  split_ifs
  · exact Or.inl rfl
  · exact Or.inl rfl
  · exact Or.inr rfl

theorem setLight_white (b : Board) (i j : Nat) (v : Bool) (r c : Nat) :
    White (setLight b i j v) r c ↔ White b r c := by
  unfold White
  rw [setLight_board]
  split_ifs <;> rfl

theorem setLight_bulb (b : Board) (i j : Nat) (v : Bool) (r c : Nat) :
    Bulb (setLight b i j v) r c ↔ if r = i ∧ c = j then v = true else Bulb b r c := by
  unfold Bulb
  rw [setLight_board]
  split_ifs <;> rfl

theorem setLight_shines (b : Board) (i j : Nat) (v : Bool) (i' j' r c : Nat) :
    Shines (setLight b i j v) i' j' r c ↔ Shines b i' j' r c := by
  unfold Shines
  simp only [setLight_white, setLight_height, setLight_width]

/-- C17: `updateIllumination` leaves the dimensions and every cell's type and
`has_light` as they were; only `is_lit` can change. -/
theorem updateIllumination_frame (b : Board) :
    (updateIllumination b).board_height = b.board_height
      ∧ (updateIllumination b).board_width = b.board_width
      ∧ ∀ r c : Nat,
          ((updateIllumination b).board r c).type = (b.board r c).type
            ∧ ((updateIllumination b).board r c).has_light = (b.board r c).has_light := by
  have f := updateIllumination_sameFrame b
  exact ⟨f.1, f.2.1, fun r c => f.2.2 r c⟩

/-- C14: bulbs sit only on white cells on every board built by `initializeBoard`; the
property is kept by `placeLight`, `removeLight` and `updateIllumination`,
whatever they return; hence it holds on every reachable board. -/
theorem bulbsOnWhite_invariant :
    (∀ (puzzle_data : List String) (h w : Nat),
        BulbsOnWhite (initializeBoard puzzle_data h w))
      ∧ (∀ (b : Board) (row col : Int),
          BulbsOnWhite b → BulbsOnWhite (placeLight b row col).2)
      ∧ (∀ (b : Board) (row col : Int),
          BulbsOnWhite b → BulbsOnWhite (removeLight b row col).2)
      ∧ (∀ b : Board, BulbsOnWhite b → BulbsOnWhite (updateIllumination b))
      ∧ (∀ b : Board, Reachable b → BulbsOnWhite b) := by
  have hc : ∀ (puzzle_data : List String) (h w : Nat),
      BulbsOnWhite (initializeBoard puzzle_data h w) := by
    intro pd h w i _ j _ hb
    simp [initializeBoard] at hb
  have hp : ∀ (b : Board) (row col : Int),
      BulbsOnWhite b → BulbsOnWhite (placeLight b row col).2 := by
    intro b row col hinv
    rcases placeLight_snd_cases b row col with ⟨-, h⟩ | ⟨-, h, -, -, hw⟩
    · rw [h]; exact hinv
    · rw [h]
      intro i hi j hj hb
      have hb2 := (setLight_bulb b _ _ true i j).mp hb
      apply (setLight_white b _ _ true i j).mpr
      by_cases hij : i = row.toNat ∧ j = col.toNat
      · rw [hij.1, hij.2]; exact hw
      · rw [if_neg hij] at hb2
        exact hinv i hi j hj hb2
  have hr : ∀ (b : Board) (row col : Int),
      BulbsOnWhite b → BulbsOnWhite (removeLight b row col).2 := by
    intro b row col hinv
    rcases removeLight_snd_cases b row col with h | h
    · rw [h]; exact hinv
    · rw [h]
      intro i hi j hj hb
      have hb2 := (setLight_bulb b _ _ false i j).mp hb
      apply (setLight_white b _ _ false i j).mpr
      by_cases hij : i = row.toNat ∧ j = col.toNat
      · rw [if_pos hij] at hb2
        exact absurd hb2 (by simp)
      · rw [if_neg hij] at hb2
        exact hinv i hi j hj hb2
  have hu : ∀ b : Board, BulbsOnWhite b → BulbsOnWhite (updateIllumination b) := by
    intro b hinv i hi j hj hb
    have f := updateIllumination_sameFrame b
    rw [(f.2.2 i j).1]
    rw [(f.2.2 i j).2] at hb
    exact hinv i (by rw [← f.1]; exact hi) j (by rw [← f.2.1]; exact hj) hb
  refine ⟨hc, hp, hr, hu, fun b hb => ?_⟩
  induction hb with
  | construct pd h w => exact hc pd h w
  | place b row col _ ih => exact hp b row col ih
  | remove b row col _ ih => exact hr b row col ih
  | propagate b _ ih => exact hu b ih

/-! ## Propagation as a union over the bulbs -/

theorem keepOnly_bulb (b : Board) (i j r c : Nat) :
    Bulb (keepOnly b i j) r c ↔ (r = i ∧ c = j) ∧ Bulb b r c := by
  unfold Bulb keepOnly
  simp only [Bool.and_eq_true, decide_eq_true_eq]

theorem keepOnly_shines (b : Board) (i j i' j' r c : Nat) :
    Shines (keepOnly b i j) i' j' r c ↔ Shines b i' j' r c := Iff.rfl

/-- Inside the board, the cells lit after `updateIllumination` are those some bulb
shines on. -/
theorem updateIllumination_lit_shoneOn (b : Board) (r c : Nat)
    (hr : r < b.board_height) (hc : c < b.board_width) :
    Lit (updateIllumination b) r c ↔ ShoneOn b r c := by
  rw [updateIllumination_lit]
  constructor
  · rintro (⟨-, hn⟩ | h)
    · exact absurd ⟨hr, hc⟩ hn
    · exact h
  · exact Or.inr

theorem keepOnly_shoneOn (b : Board) (i j r c : Nat)
    (hi : i < b.board_height) (hj : j < b.board_width) :
    ShoneOn (keepOnly b i j) r c ↔ Bulb b i j ∧ Shines b i j r c := by
  unfold ShoneOn
  constructor
  · rintro ⟨i', -, j', -, hb, hs⟩
    obtain ⟨⟨rfl, rfl⟩, hb2⟩ := (keepOnly_bulb b i j i' j').mp hb
    exact ⟨hb2, (keepOnly_shines b i' j' i' j' r c).mp hs⟩
  · rintro ⟨hb, hs⟩
    exact ⟨i, hi, j, hj, (keepOnly_bulb b i j i j).mpr ⟨⟨rfl, rfl⟩, hb⟩,
      (keepOnly_shines b i j i j r c).mpr hs⟩

/-- C11: a cell of the board is lit after `updateIllumination` exactly when it is lit
after `updateIllumination` on one of the boards that keep a single bulb of the
board; and a successful `placeLight` never turns a cell lit by propagation into
an unlit one. -/
theorem updateIllumination_union (b : Board) (r c : Nat)
    (hr : r < b.board_height) (hc : c < b.board_width) :
    (((updateIllumination b).board r c).is_lit = true ↔
        ∃ i j, i < b.board_height ∧ j < b.board_width ∧ (b.board i j).has_light = true
          ∧ ((updateIllumination (keepOnly b i j)).board r c).is_lit = true)
      ∧ (∀ row col : Int, (placeLight b row col).1 = true →
          ((updateIllumination b).board r c).is_lit = true →
          ((updateIllumination (placeLight b row col).2).board r c).is_lit = true) := by
  constructor
  · have h1 := updateIllumination_lit_shoneOn b r c hr hc
    unfold Lit at h1
    rw [h1]
    constructor
    · rintro ⟨i, hi, j, hj, hb, hs⟩
      refine ⟨i, j, hi, hj, hb, ?_⟩
      exact (updateIllumination_lit_shoneOn (keepOnly b i j) r c hr hc).mpr
        ((keepOnly_shoneOn b i j r c hi hj).mpr ⟨hb, hs⟩)
    · rintro ⟨i, j, hi, hj, hb, hl⟩
      have h2 := (updateIllumination_lit_shoneOn (keepOnly b i j) r c hr hc).mp hl
      exact ⟨i, hi, j, hj, hb, ((keepOnly_shoneOn b i j r c hi hj).mp h2).2⟩
  · intro row col hp hl
    rcases placeLight_snd_cases b row col with ⟨hf, -⟩ | ⟨-, h, -, -, -⟩
    · rw [hf] at hp; exact absurd hp (by simp)
    · rw [h]
      obtain ⟨i, hi, j, hj, hb, hs⟩ := (updateIllumination_lit_shoneOn b r c hr hc).mp hl
      refine (updateIllumination_lit_shoneOn (setLight b row.toNat col.toNat true) r c
        hr hc).mpr ⟨i, hi, j, hj, ?_, (setLight_shines b _ _ true i j r c).mpr hs⟩
      apply (setLight_bulb b _ _ true i j).mpr
      by_cases hij : i = row.toNat ∧ j = col.toNat
      · rw [if_pos hij]
      · rw [if_neg hij]; exact hb

/-- Witness of C11: on the 1×3 white board with bulbs at columns 0 and 2 the middle
cell is lit after propagation, hence lit by one of the two bulbs alone. -/
theorem updateIllumination_union_witness :
    ∃ i j, i < twoBulbRow.board_height ∧ j < twoBulbRow.board_width
      ∧ (twoBulbRow.board i j).has_light = true
      ∧ ((updateIllumination (keepOnly twoBulbRow i j)).board 0 1).is_lit = true :=
  (updateIllumination_union twoBulbRow 0 1 (by decide) (by decide)).1.mp (by decide)

/-! ## The light scan and propagation without the bulb -/

theorem removeLight_of_bulb (b : Board) (i j : Nat)
    (hi : i < b.board_height) (hj : j < b.board_width)
    (hb : (b.board i j).has_light = true) :
    (removeLight b (i : Int) (j : Int)).2 = setLight b i j false := by
  have h1 : ¬ ((i : Int) < 0 ∨ (i : Int) ≥ (b.board_height : Int) ∨ (j : Int) < 0
      ∨ (j : Int) ≥ (b.board_width : Int)) := by omega
  unfold removeLight
  rw [if_neg h1]
  simp only [Int.toNat_ofNat, hb, Bool.true_eq_false, if_false]

theorem reachesBulb_iff_shoneOn_removed (b : Board) (i j : Nat)
    (hi : i < b.board_height) (hj : j < b.board_width) (hw : White b i j) :
    ReachesBulb b i j ↔ ShoneOn (setLight b i j false) i j := by
  unfold ReachesBulb ShoneOn
  simp only [setLight_shines, setLight_bulb, setLight_height, setLight_width]
  constructor
  · rintro (⟨k, hk, hbk, hall⟩ | ⟨k, hik, hkh, hbk, hall⟩ | ⟨k, hk, hbk, hall⟩
      | ⟨k, hjk, hkw, hbk, hall⟩)
    · refine ⟨k, by omega, j, hj, ?_, Or.inr (Or.inr (Or.inl ⟨rfl, hk, hi, fun m h1 h2 => ?_⟩))⟩
      · rw [if_neg (by omega)]; exact hbk
      · by_cases hm : m = i
        · subst hm; exact hw
        · exact hall m h1 (by omega)
    · refine ⟨k, hkh, j, hj, ?_, Or.inr (Or.inl ⟨rfl, hik, fun m h1 h2 => ?_⟩)⟩
      · rw [if_neg (by omega)]; exact hbk
      · by_cases hm : m = i
        · subst hm; exact hw
        · exact hall m (by omega) h2
    · refine ⟨i, hi, k, by omega, ?_,
        Or.inr (Or.inr (Or.inr (Or.inr ⟨rfl, hk, hj, fun m h1 h2 => ?_⟩)))⟩
      · rw [if_neg (by omega)]; exact hbk
      · by_cases hm : m = j
        · subst hm; exact hw
        · exact hall m h1 (by omega)
    · refine ⟨i, hi, k, hkw, ?_, Or.inr (Or.inr (Or.inr (Or.inl ⟨rfl, hjk, fun m h1 h2 => ?_⟩)))⟩
      · rw [if_neg (by omega)]; exact hbk
      · by_cases hm : m = j
        · subst hm; exact hw
        · exact hall m (by omega) h2
  · rintro ⟨i', hi', j', hj', hb', hs⟩
    have hne : ¬ (i' = i ∧ j' = j) := by
      intro h; rw [if_pos h] at hb'; exact absurd hb' (by simp)
    rw [if_neg hne] at hb'
    unfold Shines at hs
    rcases hs with ⟨h1, h2⟩ | ⟨rfl, h1, hall⟩ | ⟨rfl, h1, -, hall⟩ | ⟨rfl, h1, hall⟩
      | ⟨rfl, h1, -, hall⟩
    · exact absurd ⟨h1.symm, h2.symm⟩ hne
    · exact Or.inr (Or.inl ⟨i', h1, hi', hb', fun m h2 h3 => hall m (by omega) h3⟩)
    · exact Or.inl ⟨i', h1, hb', fun m h2 h3 => hall m h2 (by omega)⟩
    · exact Or.inr (Or.inr (Or.inr ⟨j', h1, hj', hb', fun m h2 h3 => hall m (by omega) h3⟩))
    · exact Or.inr (Or.inr (Or.inl ⟨j', h1, hb', fun m h2 h3 => hall m h2 (by omega)⟩))

/-- C16: on a board with bulbs only on white cells, the four-direction scan of
`checkPuzzleState` from a bulb cell `(i, j)` finds another bulb exactly when
`(i, j)` is lit after `updateIllumination` on the board from which `removeLight`
has taken the bulb at `(i, j)`. -/
theorem lightScan_iff_lit_without (b : Board) (hinv : BulbsOnWhite b) (i j : Nat)
    (hi : i < b.board_height) (hj : j < b.board_width)
    (hb : (b.board i j).has_light = true) :
    lightScan b i j = true ↔
      ((updateIllumination (removeLight b (i : Int) (j : Int)).2).board i j).is_lit = true := by
  have hw : White b i j := hinv i hi j hj hb
  rw [removeLight_of_bulb b i j hi hj hb, lightScan_iff,
    reachesBulb_iff_shoneOn_removed b i j hi hj hw]
  exact (updateIllumination_lit_shoneOn (setLight b i j false) i j hi hj).symm

/-- Witness of C16: on the 1×3 white board with bulbs at columns 0 and 2, the scan from
the bulb at column 0 finds the other bulb. -/
theorem lightScan_iff_lit_without_witness :
    BulbsOnWhite twoBulbRow ∧ lightScan twoBulbRow 0 0 = true :=
  ⟨by decide,
    (lightScan_iff_lit_without twoBulbRow (by decide) 0 0 (by decide) (by decide)
      (by decide)).mpr (by decide)⟩

/-! ## Evaluation with and without a fresh propagation -/

theorem checkCell_error_light_iff (b : Board) (i j : Nat) (a : Bool) :
    checkCell b i j a = .error (-1) ↔
      ((b.board i j).has_light && (b.board i j).is_lit) = true ∧ lightScan b i j = true := by
  rw [checkCell_eq]
  have h := (verdict_cases
    (((b.board i j).has_light && (b.board i j).is_lit) = true ∧ lightScan b i j = true)
    (isNumbered (b.board i j).type = true
      ∧ (adjacentLights b i j : Int) ≠ requiredLights (b.board i j).type)).1
  rw [← h]
  show _ ↔ cellVerdict b i j = some (-1)
  cases hv : cellVerdict b i j with
  | none => simp
  | some v => simp

theorem bulb_lit_after_update (b : Board) (i j : Nat)
    (hi : i < b.board_height) (hj : j < b.board_width)
    (hb : ((updateIllumination b).board i j).has_light = true) :
    ((updateIllumination b).board i j).is_lit = true := by
  have f := updateIllumination_sameFrame b
  rw [(f.2.2 i j).2] at hb
  exact (updateIllumination_lit_inRange b i j hi hj).mpr (Or.inl hb)

/-- C19: the 1×3 white board with bulbs at columns 0 and 2 is reachable by
`initializeBoard` and `placeLight` alone, has `is_lit = false` on all its cells,
and `checkPuzzleState` returns the in-progress code on it, not the light-conflict
code it returns once `updateIllumination` has run.  A cell with `is_lit = false`
never makes the light rule return; on a board that `updateIllumination` has
returned every bulb cell is lit, so the light rule returns at a bulb cell
exactly when its scan finds a bulb. -/
theorem evaluate_needs_propagate :
    Reachable twoBulbRow
      ∧ (∀ i, i < twoBulbRow.board_height → ∀ j, j < twoBulbRow.board_width →
          (twoBulbRow.board i j).is_lit = false)
      ∧ (twoBulbRow.board 0 0).has_light = true
      ∧ (twoBulbRow.board 0 2).has_light = true
      ∧ checkPuzzleState twoBulbRow = InProgress
      ∧ checkPuzzleState twoBulbRow ≠ LightConflict
      ∧ checkPuzzleState (updateIllumination twoBulbRow) = LightConflict
      ∧ (∀ (b : Board) (i j : Nat) (a : Bool),
          (b.board i j).is_lit = false → checkCell b i j a ≠ .error (-1))
      ∧ (∀ (b : Board) (i j : Nat), i < b.board_height → j < b.board_width →
          ((updateIllumination b).board i j).has_light = true →
          ((updateIllumination b).board i j).is_lit = true
            ∧ ∀ a : Bool, (checkCell (updateIllumination b) i j a = .error (-1) ↔
                lightScan (updateIllumination b) i j = true)) := by
  refine ⟨?_, by decide, by decide, by decide, by decide, by decide, by decide, ?_, ?_⟩
  · exact Reachable.place _ 0 2 (Reachable.place _ 0 0 (Reachable.construct ["WWW"] 1 3))
  · intro b i j a hl h
    have h2 := ((checkCell_error_light_iff b i j a).mp h).1
    rw [hl] at h2
    simp at h2
  · intro b i j hi hj hb
    have hl := bulb_lit_after_update b i j hi hj hb
    refine ⟨hl, fun a => ?_⟩
    rw [checkCell_error_light_iff, hb, hl]
    simp

/-! ## Unmet clues on a board without bulbs -/

/-- C18: on a board without bulbs that has a numbered cell with a number of at least
one, `checkPuzzleState` returns the number-conflict code, whatever the `is_lit`
values are. -/
theorem unmet_clue_is_conflict (b : Board)
    (hno : ∀ i j, i < b.board_height → j < b.board_width →
      (b.board i j).has_light = false)
    (hclue : ∃ i j n, i < b.board_height ∧ j < b.board_width
      ∧ clue (b.board i j).type = some n ∧ 1 ≤ n) :
    checkPuzzleState b = NumberConflict := by
  show checkPuzzleState b = -2
  rw [checkPuzzleState_conflict_iff b (-2) (Or.inr rfl)]
  cases hfv : firstVerdict (fun i => firstVerdict (cellVerdict b i) b.board_width)
      b.board_height with
  | none =>
    exfalso
    have hnv := (verdict_none_iff b).mp hfv
    obtain ⟨i, j, n, hi, hj, hn, h1⟩ := hclue
    refine hnv i j hi hj (Or.inr ⟨n, hn, ?_⟩)
    have h0 : neighbourBulbs b i j = 0 := by
      unfold neighbourBulbs
      rw [List.length_eq_zero, List.filter_eq_nil_iff]
      intro p _ hp
      simp only [Bool.and_eq_true, decide_eq_true_eq] at hp
      rw [hno p.1 p.2 hp.1.1 hp.1.2] at hp
      exact absurd hp.2 (by simp)
    omega
  | some v =>
    obtain ⟨i, j, hi, hj, hv, -⟩ := (verdict_first_iff b v).mp hfv
    rcases cellVerdict_values b i j v hv with rfl | rfl
    · exfalso
      have hl := (cellVerdict_light b i j).mp hv
      have hb : (b.board i j).has_light = true := hl.1
      rw [hno i j hi hj] at hb
      exact absurd hb (by simp)
    · rfl

/-- Witness of C18: the freshly built 7×7 sample of `main` has no bulb and the clue 1
at `(0, 1)`, so it evaluates to the number-conflict code before any move. -/
theorem unmet_clue_is_conflict_witness :
    checkPuzzleState (initializeBoard puzzle_sample 7 7) = NumberConflict :=
  unmet_clue_is_conflict (initializeBoard puzzle_sample 7 7)
    (fun _ _ _ _ => rfl) ⟨0, 1, 1, by decide, by decide, by decide, by decide⟩

/-! ## Board construction: theorems -/

theorem charAt_eq_getD (puzzle_data : List String) (i j : Nat) :
    charAt puzzle_data i j = (charOf puzzle_data i j).getD (Char.ofNat 0) := by
  unfold charAt charOf
  rw [List.getD_eq_getElem?_getD, List.getD_eq_getElem?_getD]
  cases puzzle_data[i]? with
  | none => rfl
  | some s => rfl

theorem kindOfChar_cellTypeOfChar (ch : Char) : KindOfChar ch (cellTypeOfChar ch) := by
  unfold KindOfChar cellTypeOfChar
  split_ifs with h1 h2 h3 h4 h5 h6 h7 <;> simp_all

theorem initializeBoard_type_of_char (puzzle_data : List String) (h w i j : Nat) (ch : Char)
    (hch : charOf puzzle_data i j = some ch) :
    KindOfChar ch ((initializeBoard puzzle_data h w).board i j).type := by
  show KindOfChar ch (cellTypeOfChar (charAt puzzle_data i j))
  rw [charAt_eq_getD, hch]
  exact kindOfChar_cellTypeOfChar ch

theorem charOf_of_wellFormed (puzzle_data : List String) (h w i j : Nat)
    (hwf : WellFormed puzzle_data h w) (hi : i < h) (hj : j < w) :
    ∃ ch, charOf puzzle_data i j = some ch := by
  obtain ⟨hlen, hrows⟩ := hwf
  have hi2 : i < puzzle_data.length := by omega
  have hs : (puzzle_data[i]).length = w := hrows _ (List.getElem_mem _)
  have hj2 : j < (puzzle_data[i]).toList.length := by
    have : (puzzle_data[i]).toList.length = (puzzle_data[i]).length := rfl
    omega
  refine ⟨(puzzle_data[i]).toList[j], ?_⟩
  unfold charOf
  rw [List.getElem?_eq_getElem hi2]
  simp only [Option.some_bind]
  exact List.getElem?_eq_getElem hj2

/-- C12: from a puzzle text of exactly `h` rows of length `w`, `initializeBoard` builds a
board of dimensions `h × w` in which every cell `(i, j)` has the kind of the
character `rows[i][j]` (`W` white, `_` plain black, `0` to `4` numbered, any
other character white), no bulb and no light. -/
theorem initializeBoard_cells (puzzle_data : List String) (h w : Nat)
    (hwf : WellFormed puzzle_data h w) :
    (initializeBoard puzzle_data h w).board_height = h
      ∧ (initializeBoard puzzle_data h w).board_width = w
      ∧ ∀ i j, i < h → j < w →
          ∃ ch, charOf puzzle_data i j = some ch
            ∧ KindOfChar ch ((initializeBoard puzzle_data h w).board i j).type
            ∧ ((initializeBoard puzzle_data h w).board i j).has_light = false
            ∧ ((initializeBoard puzzle_data h w).board i j).is_lit = false := by
  refine ⟨rfl, rfl, fun i j hi hj => ?_⟩
  obtain ⟨ch, hch⟩ := charOf_of_wellFormed puzzle_data h w i j hwf hi hj
  exact ⟨ch, hch, initializeBoard_type_of_char puzzle_data h w i j ch hch, rfl, rfl⟩

/-- Witness of C12: in the board built from the well-formed text `"W5 1"` the cell
`(0, 3)` has the kind of the character at that position. -/
theorem initializeBoard_cells_witness :
    WellFormed ["W5 1"] 1 4
      ∧ ∃ ch, charOf ["W5 1"] 0 3 = some ch
          ∧ KindOfChar ch ((initializeBoard ["W5 1"] 1 4).board 0 3).type :=
  ⟨by decide,
    ((initializeBoard_cells ["W5 1"] 1 4 (by decide)).2.2 0 3 (by decide) (by decide)).imp
      fun _ h => ⟨h.1, h.2.1⟩⟩

/-- C13 as stated fails: `initializeBoard` builds a board from a row that is too long
(the surplus character is ignored), from a row one character short (the cell
past its end is white) and from a text with a surplus row. -/
theorem initializeBoard_accepts_malformed :
    (¬ WellFormed ["WW_"] 1 2
        ∧ (initializeBoard ["WW_"] 1 2).board_height = 1
        ∧ (initializeBoard ["WW_"] 1 2).board_width = 2
        ∧ ((initializeBoard ["WW_"] 1 2).board 0 0).type = .CELL_WHITE
        ∧ ((initializeBoard ["WW_"] 1 2).board 0 1).type = .CELL_WHITE)
      ∧ (¬ WellFormed ["__", "_"] 2 2
        ∧ (initializeBoard ["__", "_"] 2 2).board_height = 2
        ∧ (initializeBoard ["__", "_"] 2 2).board_width = 2
        ∧ ((initializeBoard ["__", "_"] 2 2).board 1 0).type = .CELL_BLACK
        ∧ ((initializeBoard ["__", "_"] 2 2).board 1 1).type = .CELL_WHITE)
      ∧ (¬ WellFormed ["W", "_"] 1 1
        ∧ (initializeBoard ["W", "_"] 1 1).board_height = 1
        ∧ (initializeBoard ["W", "_"] 1 1).board_width = 1
        ∧ ((initializeBoard ["W", "_"] 1 1).board 0 0).type = .CELL_WHITE) := by
  decide

/-- A well-formed text has all its reads defined; the converse fails. -/
theorem readsDefined_of_wellFormed (puzzle_data : List String) (h w : Nat)
    (hwf : WellFormed puzzle_data h w) : ReadsDefined puzzle_data h w := by
  intro i hi j hj
  obtain ⟨hlen, hrows⟩ := hwf
  have hi2 : i < puzzle_data.length := by omega
  refine ⟨puzzle_data[i], List.getElem?_eq_getElem hi2, ?_⟩
  have hs : (puzzle_data[i]).length = w := hrows _ (List.getElem_mem _)
  omega

/-- C13, amended: `initializeBoard` validates nothing.  For every puzzle text and all
dimensions such that no read is out of bounds (every read is a character of an
existing row or that row's terminator), well-formed or not, it builds a board of
those dimensions without bulbs and light, in which every cell either has the
kind of its character in the text or lies at the terminator of its row and is
white. -/
theorem initializeBoard_unchecked (puzzle_data : List String) (h w : Nat)
    (hdef : ReadsDefined puzzle_data h w) :
    (initializeBoard puzzle_data h w).board_height = h
      ∧ (initializeBoard puzzle_data h w).board_width = w
      ∧ ∀ i j, i < h → j < w →
          ((initializeBoard puzzle_data h w).board i j).has_light = false
            ∧ ((initializeBoard puzzle_data h w).board i j).is_lit = false
            ∧ ((∃ ch, charOf puzzle_data i j = some ch
                  ∧ KindOfChar ch ((initializeBoard puzzle_data h w).board i j).type)
              ∨ ((∃ s, puzzle_data[i]? = some s ∧ j = s.length)
                  ∧ ((initializeBoard puzzle_data h w).board i j).type = .CELL_WHITE)) := by
  refine ⟨rfl, rfl, fun i j hi hj => ⟨rfl, rfl, ?_⟩⟩
  obtain ⟨s, hs, hjs⟩ := hdef i hi j hj
  have hlen : s.toList.length = s.length := rfl
  by_cases hlt : j < s.length
  · left
    have hj2 : j < s.toList.length := by omega
    have hch : charOf puzzle_data i j = some (s.toList[j]) := by
      unfold charOf
      rw [hs]
      simp only [Option.some_bind]
      exact List.getElem?_eq_getElem hj2
    exact ⟨_, hch, initializeBoard_type_of_char puzzle_data h w i j _ hch⟩
  · right
    refine ⟨⟨s, hs, by omega⟩, ?_⟩
    show cellTypeOfChar (charAt puzzle_data i j) = .CELL_WHITE
    have hnone : charOf puzzle_data i j = none := by
      unfold charOf
      rw [hs]
      simp only [Option.some_bind]
      apply List.getElem?_eq_none
      omega
    rw [charAt_eq_getD, hnone]
    decide

/-- Witness of C13 (amended): the text `["__", "_"]` for a 2×2 board is not well-formed,
all its reads are defined, and cell `(1, 1)`, at the terminator of the short
row, is white. -/
theorem initializeBoard_unchecked_witness :
    ¬ WellFormed ["__", "_"] 2 2
      ∧ ReadsDefined ["__", "_"] 2 2
      ∧ ((initializeBoard ["__", "_"] 2 2).board 1 1).has_light = false
      ∧ ((∃ ch, charOf ["__", "_"] 1 1 = some ch
            ∧ KindOfChar ch ((initializeBoard ["__", "_"] 2 2).board 1 1).type)
          ∨ ((∃ s, ["__", "_"][1]? = some s ∧ 1 = s.length)
            ∧ ((initializeBoard ["__", "_"] 2 2).board 1 1).type = .CELL_WHITE)) := by
  have hdef : ReadsDefined ["__", "_"] 2 2 := by
    intro i hi j hj
    interval_cases i <;> interval_cases j <;> exact ⟨_, rfl, by decide⟩
  have h := (initializeBoard_unchecked ["__", "_"] 2 2 hdef).2.2 1 1 (by decide) (by decide)
  exact ⟨by decide, hdef, h.1, h.2.2⟩

/-! ## The board `"W1W"` -/

/-- C15 as stated fails: on `"W1W"` with one bulb at column 0, after propagation,
`checkPuzzleState` does not return the solved code: the white cell at column 2
is not lit. -/
theorem oneRow_not_solved :
    (placeLight oneRow 0 0).1 = true
      ∧ ((updateIllumination (placeLight oneRow 0 0).2).board 0 2).type = .CELL_WHITE
      ∧ ((updateIllumination (placeLight oneRow 0 0).2).board 0 2).is_lit = false
      ∧ checkPuzzleState (updateIllumination (placeLight oneRow 0 0).2) ≠ Solved := by
  decide

/-- C15, amended: on `"W1W"` with one bulb at column 0 or at column 2, after
propagation, no cell is violating and the bulb's cell is lit, but the white cell
on the other side of the numbered cell is not lit, and `checkPuzzleState` returns
the in-progress code. -/
theorem oneRow_in_progress :
    ((placeLight oneRow 0 0).1 = true
        ∧ NoViolation (updateIllumination (placeLight oneRow 0 0).2)
        ∧ neighbourBulbs (updateIllumination (placeLight oneRow 0 0).2) 0 1 = 1
        ∧ ((updateIllumination (placeLight oneRow 0 0).2).board 0 0).is_lit = true
        ∧ ((updateIllumination (placeLight oneRow 0 0).2).board 0 2).is_lit = false
        ∧ checkPuzzleState (updateIllumination (placeLight oneRow 0 0).2) = InProgress)
      ∧ ((placeLight oneRow 0 2).1 = true
        ∧ NoViolation (updateIllumination (placeLight oneRow 0 2).2)
        ∧ neighbourBulbs (updateIllumination (placeLight oneRow 0 2).2) 0 1 = 1
        ∧ ((updateIllumination (placeLight oneRow 0 2).2).board 0 2).is_lit = true
        ∧ ((updateIllumination (placeLight oneRow 0 2).2).board 0 0).is_lit = false
        ∧ checkPuzzleState (updateIllumination (placeLight oneRow 0 2).2) = InProgress) := by
  have h0 : checkPuzzleState (updateIllumination (placeLight oneRow 0 0).2) = 0 := by decide
  have h2 : checkPuzzleState (updateIllumination (placeLight oneRow 0 2).2) = 0 := by decide
  exact ⟨⟨by decide, ((checkPuzzleState_inProgress_iff _).mp h0).1, by decide, by decide,
      by decide, h0⟩,
    ⟨by decide, ((checkPuzzleState_inProgress_iff _).mp h2).1, by decide, by decide,
      by decide, h2⟩⟩

end Akari
